import Mathlib

set_option maxRecDepth 8000

/-!
Verification development for the mattsblocklist country-blocklist aggregator.

The Go sources are shallowly embedded: Go maps are modelled as association
lists with in-place overwrite (`alookup` / `aset`), Go strings as Lean
strings manipulated through their character lists, machine integers as `Nat`,
and fallible operations as `Option` / `Except`.  Unicode-dependent library
calls (`norm.NFKD`, `unicode.ToLower`, ...) are modelled exactly on the
character set that actually occurs in the repository's data (ASCII plus the
five accented characters of the catalog); every definition keeps the shape
and the name of the Go function it embeds.
-/

namespace Blocklist

/-- Association-list lookup modelling a Go map read `v, ok := m[k]`. -/
def alookup {α : Type} : List (String × α) → String → Option α
  | [], _ => none
  | (k, v) :: m, key => if k = key then some v else alookup m key

/-- Association-list write modelling a Go map assignment `m[k] = v`: the
binding is replaced in place when the key is present and appended otherwise. -/
def aset {α : Type} : List (String × α) → String → α → List (String × α)
  | [], key, v => [(key, v)]
  | (k, w) :: m, key, v => if k = key then (key, v) :: m else (k, w) :: aset m key v

/-- Keys of an association list. -/
def keysOf {α : Type} (m : List (String × α)) : List String := m.map Prod.fst

theorem keysOf_nil {α : Type} : keysOf ([] : List (String × α)) = [] := rfl

theorem keysOf_cons {α : Type} (k : String) (v : α) (m : List (String × α)) :
    keysOf ((k, v) :: m) = k :: keysOf m := rfl

theorem alookup_aset {α : Type} (m : List (String × α)) (k k' : String) (v : α) :
    alookup (aset m k v) k' = if k = k' then some v else alookup m k' := by
  induction m with
  | nil => by_cases h : k = k' <;> simp [aset, alookup, h]
  | cons p m ih =>
    obtain ⟨pk, pv⟩ := p
    by_cases h : pk = k
    · subst h
      by_cases h2 : pk = k' <;> simp [aset, alookup, h2]
    · by_cases h2 : pk = k'
      · subst h2
        have : ¬ k = pk := fun hh => h hh.symm
        simp [aset, alookup, h, this]
      · simp [aset, alookup, h, h2, ih]

theorem alookup_aset_self {α : Type} (m : List (String × α)) (k : String) (v : α) :
    alookup (aset m k v) k = some v := by
  simp [alookup_aset]

theorem alookup_aset_ne {α : Type} (m : List (String × α)) {k k' : String} (v : α)
    (h : k ≠ k') : alookup (aset m k v) k' = alookup m k' := by
  simp [alookup_aset, h]

theorem mem_keysOf_aset {α : Type} (m : List (String × α)) (k k' : String) (v : α) :
    k' ∈ keysOf (aset m k v) ↔ k' = k ∨ k' ∈ keysOf m := by
  induction m with
  | nil => simp [aset, keysOf_cons, keysOf_nil]
  | cons p m ih =>
    obtain ⟨pk, pv⟩ := p
    by_cases h : pk = k
    · subst h
      rw [show aset ((pk, pv) :: m) pk v = (pk, v) :: m from by simp [aset]]
      rw [keysOf_cons, keysOf_cons]
      simp [List.mem_cons]
    · rw [show aset ((pk, pv) :: m) k v = (pk, pv) :: aset m k v from by simp [aset, h]]
      rw [keysOf_cons, keysOf_cons, List.mem_cons, List.mem_cons, ih]
      tauto

theorem nodup_keysOf_aset {α : Type} (m : List (String × α)) (k : String) (v : α)
    (h : (keysOf m).Nodup) : (keysOf (aset m k v)).Nodup := by
  induction m with
  | nil => simp [aset, keysOf_cons, keysOf_nil]
  | cons p m ih =>
    obtain ⟨pk, pv⟩ := p
    rw [keysOf_cons, List.nodup_cons] at h
    by_cases hk : pk = k
    · subst hk
      rw [show aset ((pk, pv) :: m) pk v = (pk, v) :: m from by simp [aset]]
      rw [keysOf_cons, List.nodup_cons]
      exact h
    · rw [show aset ((pk, pv) :: m) k v = (pk, pv) :: aset m k v from by simp [aset, hk]]
      rw [keysOf_cons, List.nodup_cons]
      refine ⟨?_, ih h.2⟩
      intro hmem
      rcases (mem_keysOf_aset m k pk v).1 hmem with h1 | h1
      · exact hk h1
      · exact h.1 h1

theorem alookup_eq_some_of_mem {α : Type} (m : List (String × α)) (k : String) (v : α)
    (hnd : (keysOf m).Nodup) (hmem : (k, v) ∈ m) : alookup m k = some v := by
  induction m with
  | nil => simp at hmem
  | cons p m ih =>
    obtain ⟨pk, pv⟩ := p
    rw [keysOf_cons, List.nodup_cons] at hnd
    rcases List.mem_cons.1 hmem with h | h
    · rw [Prod.ext_iff] at h
      obtain ⟨h1, h2⟩ := h
      simp only [alookup]
      rw [if_pos h1.symm]
      exact congrArg some h2.symm
    · have hk : pk ≠ k := by
        intro hh
        subst hh
        exact hnd.1 (List.mem_map_of_mem Prod.fst h)
      simp only [alookup]
      rw [if_neg hk]
      exact ih hnd.2 h

theorem mem_of_alookup_eq_some {α : Type} (m : List (String × α)) (k : String) (v : α)
    (h : alookup m k = some v) : (k, v) ∈ m := by
  induction m with
  | nil => simp [alookup] at h
  | cons p m ih =>
    obtain ⟨pk, pv⟩ := p
    by_cases hk : pk = k
    · subst hk
      simp [alookup] at h
      simp [h]
    · simp [alookup, hk] at h
      exact List.mem_cons_of_mem _ (ih h)

theorem mem_keysOf_iff_isSome {α : Type} (m : List (String × α)) (k : String) :
    k ∈ keysOf m ↔ (alookup m k).isSome := by
  induction m with
  | nil => simp [alookup, keysOf_nil]
  | cons p m ih =>
    obtain ⟨pk, pv⟩ := p
    rw [keysOf_cons, List.mem_cons]
    by_cases hk : pk = k
    · subst hk
      simp [alookup]
    · simp only [alookup]
      rw [if_neg hk, ← ih]
      constructor
      · rintro (h | h)
        · exact absurd h.symm hk
        · exact h
      · exact Or.inr

/-- Alternative Go-map model as a lookup function, used for the two
read-only indices of the normalizer (they are only ever read pointwise,
never iterated). -/
def gset {α : Type} (m : String → Option α) (k : String) (v : α) :
    String → Option α :=
  fun key => if key = k then some v else m key

/-- Fold performing a list of map writes in order, the shape shared by the
map-construction loops of `NewNormalizer`. -/
def gwrites {α : Type} (m : String → Option α) (ps : List (String × α)) :
    String → Option α :=
  ps.foldl (fun m q => gset m q.1 q.2) m

theorem gwrites_cons {α : Type} (m : String → Option α) (q : String × α)
    (ps : List (String × α)) : gwrites m (q :: ps) = gwrites (gset m q.1 q.2) ps := rfl

theorem gset_ne {α : Type} (m : String → Option α) {k key : String} (v : α)
    (h : key ≠ k) : gset m k v key = m key := by
  simp [gset, h]

theorem gwrites_of_not_written {α : Type} (ps : List (String × α)) :
    ∀ (m : String → Option α) (k : String), (∀ q ∈ ps, q.1 ≠ k) →
    gwrites m ps k = m k := by
  induction ps with
  | nil => intro m k _; rfl
  | cons q ps ih =>
    intro m k h
    rw [gwrites_cons, ih _ _ (fun r hr => h r (List.mem_cons_of_mem _ hr))]
    exact gset_ne m _ (fun hh => h q (List.mem_cons_self _ _) hh.symm)

theorem gwrites_of_func {α : Type} (ps : List (String × α)) :
    ∀ (m : String → Option α) (k : String) (v : α), (k, v) ∈ ps →
    (∀ q ∈ ps, q.1 = k → q.2 = v) →
    gwrites m ps k = some v := by
  induction ps with
  | nil => intro m k v h; simp at h
  | cons q ps ih =>
    intro m k v hmem hfunc
    rw [gwrites_cons]
    by_cases htail : ∃ r ∈ ps, r.1 = k
    · obtain ⟨r, hr, hrk⟩ := htail
      have hrv : r.2 = v := hfunc r (List.mem_cons_of_mem _ hr) hrk
      have : (k, v) ∈ ps := by
        have : r = (k, v) := Prod.ext hrk hrv
        rwa [this] at hr
      exact ih _ _ _ this (fun r hr hrk => hfunc r (List.mem_cons_of_mem _ hr) hrk)
    · push_neg at htail
      rw [gwrites_of_not_written ps _ _ htail]
      have hq : q = (k, v) := by
        rcases List.mem_cons.1 hmem with h | h
        · exact h.symm
        · exact absurd rfl (htail _ h)
      rw [hq]
      simp [gset]

theorem gwrites_mem {α : Type} (ps : List (String × α)) :
    ∀ (m : String → Option α) (k : String) (v : α),
    gwrites m ps k = some v → (k, v) ∈ ps ∨ m k = some v := by
  induction ps with
  | nil => intro m k v h; exact Or.inr h
  | cons q ps ih =>
    intro m k v h
    rw [gwrites_cons] at h
    rcases ih _ _ _ h with h1 | h1
    · exact Or.inl (List.mem_cons_of_mem _ h1)
    · by_cases hk : k = q.1
      · rw [hk] at h1
        simp [gset] at h1
        left
        rw [hk, ← h1]
        exact List.mem_cons_self _ _
      · rw [gset_ne _ _ hk] at h1
        exact Or.inr h1

/-! Generic fuel-based merge sort.  It is used only to certify data-level
properties of the static catalog (alias functionality) in near-linear time;
the structural fuel keeps every definition kernel-reducible. -/

/-- Merge two lists under a boolean order, with structural fuel. -/
def mergeFuel {α : Type} (le : α → α → Bool) : Nat → List α → List α → List α
  | 0, xs, ys => xs ++ ys
  | _ + 1, [], ys => ys
  | _ + 1, x :: xs, [] => x :: xs
  | n + 1, x :: xs, y :: ys =>
    if le x y then x :: mergeFuel le n xs (y :: ys)
    else y :: mergeFuel le n (x :: xs) ys

/-- Merge sort with structural fuel; `msortFuel le l.length l` sorts `l`. -/
def msortFuel {α : Type} (le : α → α → Bool) : Nat → List α → List α
  | 0, l => l
  | n + 1, l =>
    if l.length ≤ 1 then l
    else
      mergeFuel le l.length
        (msortFuel le n (l.take (l.length / 2)))
        (msortFuel le n (l.drop (l.length / 2)))

theorem mergeFuel_perm {α : Type} (le : α → α → Bool) :
    ∀ (n : Nat) (xs ys : List α), (mergeFuel le n xs ys).Perm (xs ++ ys) := by
  intro n
  induction n with
  | zero => intro xs ys; exact List.Perm.refl _
  | succ n ih =>
    intro xs ys
    match xs, ys with
    | [], ys => simp [mergeFuel]
    | x :: xs, [] => simp [mergeFuel]
    | x :: xs, y :: ys =>
      rw [mergeFuel]
      by_cases h : le x y
      · rw [if_pos h]
        exact ((ih xs (y :: ys)).cons x).trans (List.Perm.refl _)
      · rw [if_neg h]
        exact ((ih (x :: xs) ys).cons y).trans List.perm_middle.symm

theorem msortFuel_perm {α : Type} (le : α → α → Bool) :
    ∀ (n : Nat) (l : List α), (msortFuel le n l).Perm l := by
  intro n
  induction n with
  | zero => intro l; exact List.Perm.refl _
  | succ n ih =>
    intro l
    rw [msortFuel]
    by_cases h : l.length ≤ 1
    · rw [if_pos h]
    · rw [if_neg h]
      refine (mergeFuel_perm le _ _ _).trans ?_
      refine ((ih _).append (ih _)).trans ?_
      rw [List.take_append_drop]

theorem mergeFuel_sorted {α : Type} {le : α → α → Bool}
    (htrans : ∀ a b c, le a b = true → le b c = true → le a c = true)
    (htot : ∀ a b, le a b = true ∨ le b a = true) :
    ∀ (n : Nat) (xs ys : List α), xs.length + ys.length ≤ n →
    xs.Pairwise (fun a b => le a b = true) → ys.Pairwise (fun a b => le a b = true) →
    (mergeFuel le n xs ys).Pairwise (fun a b => le a b = true) := by
  intro n
  induction n with
  | zero =>
    intro xs ys hlen hxs hys
    have h1 : xs = [] := List.length_eq_zero.1 (by omega)
    have h2 : ys = [] := List.length_eq_zero.1 (by omega)
    subst h1; subst h2
    simp [mergeFuel]
  | succ n ih =>
    intro xs ys hlen hxs hys
    match xs, ys with
    | [], ys => simpa [mergeFuel] using hys
    | x :: xs, [] => simpa [mergeFuel] using hxs
    | x :: xs, y :: ys =>
      rw [List.pairwise_cons] at hxs hys
      simp only [List.length_cons] at hlen
      rw [mergeFuel]
      by_cases h : le x y
      · rw [if_pos h]
        rw [List.pairwise_cons]
        constructor
        · intro b hb
          have hb2 := (mergeFuel_perm le n xs (y :: ys)).mem_iff.1 hb
          rcases List.mem_append.1 hb2 with hb3 | hb3
          · exact hxs.1 b hb3
          · rcases List.mem_cons.1 hb3 with hb4 | hb4
            · rw [hb4]; exact h
            · exact htrans _ _ _ h (hys.1 b hb4)
        · refine ih xs (y :: ys) (by simp; omega) hxs.2 ?_
          rw [List.pairwise_cons]
          exact hys
      · rw [if_neg h]
        have hyx : le y x = true := (htot x y).resolve_left (by simpa using h)
        rw [List.pairwise_cons]
        constructor
        · intro b hb
          have hb2 := (mergeFuel_perm le n (x :: xs) ys).mem_iff.1 hb
          rcases List.mem_append.1 hb2 with hb3 | hb3
          · rcases List.mem_cons.1 hb3 with hb4 | hb4
            · rw [hb4]; exact hyx
            · exact htrans _ _ _ hyx (hxs.1 b hb4)
          · exact hys.1 b hb3
        · refine ih (x :: xs) ys (by simp; omega) ?_ hys.2
          rw [List.pairwise_cons]
          exact hxs

theorem msortFuel_sorted {α : Type} {le : α → α → Bool}
    (htrans : ∀ a b c, le a b = true → le b c = true → le a c = true)
    (htot : ∀ a b, le a b = true ∨ le b a = true) :
    ∀ (n : Nat) (l : List α), l.length ≤ n →
    (msortFuel le n l).Pairwise (fun a b => le a b = true) := by
  intro n
  induction n with
  | zero =>
    intro l hl
    have : l = [] := List.length_eq_zero.1 (by omega)
    subst this
    simp [msortFuel]
  | succ n ih =>
    intro l hl
    rw [msortFuel]
    by_cases h : l.length ≤ 1
    · rw [if_pos h]
      match l, h with
      | [], _ => simp
      | [a], _ => simp
    · rw [if_neg h]
      have hlen2 : 2 ≤ l.length := by omega
      refine mergeFuel_sorted htrans htot _ _ _ ?_ ?_ ?_
      · rw [(msortFuel_perm le n _).length_eq, (msortFuel_perm le n _).length_eq,
          List.length_take, List.length_drop]
        omega
      · exact ih _ (by rw [List.length_take]; omega)
      · exact ih _ (by rw [List.length_drop]; omega)

/-- Boolean key order on write pairs. -/
def pairLE {α : Type} (q r : String × α) : Bool := decide (q.1 ≤ r.1)

theorem pairLE_trans {α : Type} (a b c : String × α)
    (h1 : pairLE a b = true) (h2 : pairLE b c = true) : pairLE a c = true :=
  decide_eq_true (le_trans (of_decide_eq_true h1) (of_decide_eq_true h2))

theorem pairLE_total {α : Type} (a b : String × α) :
    pairLE a b = true ∨ pairLE b a = true := by
  rcases le_total a.1 b.1 with h | h
  · exact Or.inl (decide_eq_true h)
  · exact Or.inr (decide_eq_true h)

/-- In a key-sorted list where adjacent equal keys carry equal values, the
head's value agrees with every later element sharing its key. -/
theorem chain_head_func {α : Type} :
    ∀ (l : List (String × α)) (a : String × α),
    (a :: l).Pairwise (fun q r => pairLE q r = true) →
    (a :: l).Chain' (fun q r => q.1 = r.1 → q.2 = r.2) →
    ∀ b ∈ l, a.1 = b.1 → a.2 = b.2 := by
  intro l
  induction l with
  | nil => intro a _ _ b hb; simp at hb
  | cons c l ih =>
    intro a hp hc b hb hk
    rw [List.chain'_cons] at hc
    have hac : a.1 ≤ c.1 :=
      of_decide_eq_true ((List.pairwise_cons.1 hp).1 c (List.mem_cons_self _ _))
    rcases List.mem_cons.1 hb with hb1 | hb1
    · rw [hb1] at hk ⊢
      exact hc.1 hk
    · have hcb : c.1 ≤ b.1 := by
        have := (List.pairwise_cons.1 (List.pairwise_cons.1 hp).2).1 b hb1
        simpa [pairLE] using this
      have hkeq : a.1 = c.1 := le_antisymm hac (hk ▸ hcb)
      have h1 : a.2 = c.2 := hc.1 hkeq
      have h2 : c.2 = b.2 :=
        ih c (List.pairwise_cons.1 hp).2 hc.2 b hb1 (hkeq ▸ hk)
      exact h1.trans h2

/-- Pairwise functionality (equal keys imply equal values) follows from
sortedness by key together with the property on adjacent elements. -/
theorem func_of_sorted_chain {α : Type} :
    ∀ (l : List (String × α)),
    l.Pairwise (fun q r => pairLE q r = true) →
    l.Chain' (fun q r => q.1 = r.1 → q.2 = r.2) →
    ∀ q ∈ l, ∀ r ∈ l, q.1 = r.1 → q.2 = r.2 := by
  intro l
  induction l with
  | nil => intro _ _ q hq; simp at hq
  | cons a l ih =>
    intro hp hc q hq r hr hk
    rcases List.mem_cons.1 hq with hq1 | hq1 <;> rcases List.mem_cons.1 hr with hr1 | hr1
    · rw [hq1, hr1]
    · rw [hq1] at hk ⊢
      exact chain_head_func l a hp hc r hr1 hk
    · rw [hr1] at hk ⊢
      exact (chain_head_func l a hp hc q hq1 hk.symm).symm
    · exact ih (List.pairwise_cons.1 hp).2 (List.Chain'.tail hc) q hq1 r hr1 hk

/-- Executable adjacent-functionality check (kernel-reducible, unlike the
generic decidability instance for `Chain'`). -/
def chainFuncB : List (String × String) → Bool
  | [] => true
  | [_] => true
  | q :: r :: l => ((!(q.1 == r.1)) || (q.2 == r.2)) && chainFuncB (r :: l)

theorem chain_of_chainFuncB :
    ∀ (l : List (String × String)), chainFuncB l = true →
    l.Chain' (fun q r => q.1 = r.1 → q.2 = r.2) := by
  intro l
  induction l with
  | nil => intro _; simp
  | cons q l ih =>
    match l with
    | [] => intro _; simp
    | r :: l =>
      intro h
      rw [chainFuncB, Bool.and_eq_true] at h
      rw [List.chain'_cons]
      refine ⟨?_, ih h.2⟩
      intro hk
      have h1 := h.1
      rw [Bool.or_eq_true] at h1
      rcases h1 with h1 | h1
      · exact absurd (beq_iff_eq.2 hk) (by simpa using h1)
      · exact beq_iff_eq.1 h1

/-- Certified functionality of a write list, obtained by sorting it and
checking only adjacent elements. -/
theorem func_of_msort_chain (l : List (String × String))
    (hchain : chainFuncB (msortFuel pairLE l.length l) = true) :
    ∀ q ∈ l, ∀ r ∈ l, q.1 = r.1 → q.2 = r.2 := by
  intro q hq r hr hk
  have hperm := msortFuel_perm pairLE l.length l
  have hsorted := @msortFuel_sorted (String × String) pairLE
    pairLE_trans pairLE_total l.length l (le_refl _)
  exact func_of_sorted_chain _ hsorted (chain_of_chainFuncB _ hchain) q
    (hperm.mem_iff.2 hq) r (hperm.mem_iff.2 hr) hk

/-! String utilities embedding the Go standard-library calls used by the
repository.  Unicode-aware functions are modelled exactly on ASCII plus the
five accented characters occurring in the country catalog; on every string
over that alphabet they agree with their Go counterparts. -/

/-- Model of Go `strings.ToLower` on the ASCII range. -/
def toLowerChar (c : Char) : Char :=
  if 'A' ≤ c ∧ c ≤ 'Z' then Char.ofNat (c.toNat + 32) else c

/-- Model of Go `strings.ToUpper` on ASCII plus the accented letter
`é` (the character used to witness byte-length behaviour). -/
def toUpperChar (c : Char) : Char :=
  if 'a' ≤ c ∧ c ≤ 'z' then Char.ofNat (c.toNat - 32)
  else if c = 'é' then 'É'
  else c

def toLowerStr (s : String) : String := ⟨s.data.map toLowerChar⟩

def toUpperStr (s : String) : String := ⟨s.data.map toUpperChar⟩

/-- Model of Go `unicode.IsSpace` on the whitespace characters that occur. -/
def isSpc (c : Char) : Bool := c = ' ' ∨ c = '\t' ∨ c = '\n' ∨ c = '\r'

/-- NFKD decomposition (`norm.NFKD.String`) modelled on the accented
characters appearing in the country catalog; any other character decomposes
to itself.  The second element of each pair is the combining mark, which
`unicode.IsLetter` rejects, so it is stripped by `normalizeString` exactly
as in Go. -/
def nfkdChar (c : Char) : List Char :=
  if c = 'ã' then ['a', '̃']
  else if c = 'é' then ['e', '́']
  else if c = 'í' then ['i', '́']
  else if c = 'ô' then ['o', '̂']
  else if c = 'ü' then ['u', '̈']
  else [c]

/-- Model of `unicode.IsLetter` on the post-NFKD alphabet (ASCII letters;
combining marks are not letters). -/
def isLetterM (c : Char) : Bool := c.isAlpha

/-- Model of `unicode.IsNumber` on the occurring alphabet. -/
def isNumberM (c : Char) : Bool := c.isDigit

/-- Helper of `fields`: accumulates the current word in reverse. -/
def fieldsAux : List Char → List Char → List (List Char)
  | [], cur => if cur.isEmpty then [] else [cur.reverse]
  | c :: cs, cur =>
    if isSpc c then
      if cur.isEmpty then fieldsAux cs [] else cur.reverse :: fieldsAux cs []
    else fieldsAux cs (c :: cur)

/-- Model of Go `strings.Fields`: splits around runs of whitespace. -/
def fields (cs : List Char) : List (List Char) := fieldsAux cs []

/-- Model of `strings.Join ws " "`. -/
def joinSpace : List (List Char) → List Char
  | [] => []
  | [w] => w
  | w :: v :: ws => w ++ ' ' :: joinSpace (v :: ws)

/-- Model of Go `strings.TrimSpace`. -/
def trimSpace (s : String) : String :=
  ⟨((s.data.dropWhile isSpc).reverse.dropWhile isSpc).reverse⟩

/-- Number of bytes of the UTF-8 encoding of a character; Go `len` on a
string counts bytes. -/
def utf8CharLen (c : Char) : Nat :=
  if c.toNat < 0x80 then 1
  else if c.toNat < 0x800 then 2
  else if c.toNat < 0x10000 then 3
  else 4

/-- Model of Go `len(s)` on a string: the UTF-8 byte length. -/
def utf8Len (s : String) : Nat := s.data.foldl (fun n c => n + utf8CharLen c) 0

/-- Splits a character list at every occurrence of `sep`, modelling Go
`strings.Split` with a one-character separator. -/
def splitChar (sep : Char) : List Char → List (List Char)
  | [] => [[]]
  | c :: cs =>
    match splitChar sep cs with
    | [] => [[]]
    | w :: ws => if c = sep then [] :: w :: ws else (c :: w) :: ws

/-- Model of `strings.HasPrefix line "#"`. -/
def startsWithHash (s : String) : Bool :=
  match s.data with
  | [] => false
  | c :: _ => c = '#'

/-- Embedding of `normalizeString` (internal/countries/normalize.go): NFKD
decomposition, keep letters (lowercased), numbers and whitespace, then
collapse whitespace runs via `strings.Fields` / `strings.Join`. -/
def normalizeString (s : String) : String :=
  let decomposed := s.data.foldr (fun c acc => nfkdChar c ++ acc) []
  let kept := decomposed.foldr (fun c acc =>
    if isLetterM c then toLowerChar c :: acc
    else if isNumberM c || isSpc c then c :: acc
    else acc) []
  ⟨joinSpace (fields kept)⟩


/-! Source adapters (internal/scrapers).  The HTTP transport, the JSON
decoding and the regex extraction paths are injected capabilities, exactly
as the spec frames them ("a capability contract per source, not its
implementation"); the control flow of every `Scrape` method is translated
from the source.  A fetch is `Except String String`: `.error` carries the Go
error text. -/

/-- Embedding of `ScrapeResult` (internal/scrapers/scraper.go); `FetchedAt`
is an abstract instant. -/
structure ScrapeResult where
  source : String
  url : String
  fetchedAt : Nat
  contentHash : String
  rawCountries : List String
  parseStatus : String
  error : String
  deriving DecidableEq

/-- Embedding of `BaseScraper.NewResult`: remaining fields take Go zero
values. -/
def NewResult (name url : String) (now : Nat) : ScrapeResult :=
  ⟨name, url, now, "", [], "", ""⟩

/-- Hardcoded last-known-good fallback list of the Go source. -/
def euSanctionedCountries : List String := ["Russia", "Belarus", "Iran", "Syria", "North Korea", "Myanmar", "Venezuela", "Nicaragua", "Mali", "Guinea", "Sudan", "South Sudan", "Central African Republic", "Democratic Republic of the Congo", "Somalia", "Eritrea", "Libya", "Yemen", "Zimbabwe"]

/-- Hardcoded last-known-good fallback list of the Go source. -/
def usOFACSanctionedCountries : List String := ["Cuba", "Iran", "North Korea", "Syria", "Russia", "Belarus", "Venezuela", "Myanmar", "Nicaragua", "Central African Republic", "Democratic Republic of the Congo", "Ethiopia", "Iraq", "Lebanon", "Libya", "Mali", "Somalia", "South Sudan", "Sudan", "Yemen", "Zimbabwe"]

/-- Hardcoded last-known-good fallback list of the Go source. -/
def ukSanctionedCountries : List String := ["Russia", "Belarus", "Iran", "Syria", "North Korea", "Myanmar", "Venezuela", "Nicaragua", "Libya", "Mali", "Somalia", "South Sudan", "Sudan", "Yemen", "Zimbabwe", "Guinea", "Central African Republic"]

/-- Hardcoded last-known-good fallback list of the Go source. -/
def unSanctionedCountries : List String := ["North Korea", "Iran", "Libya", "Mali", "Somalia", "South Sudan", "Sudan", "Yemen", "Central African Republic", "Democratic Republic of the Congo", "Iraq", "Lebanon"]

/-- Hardcoded last-known-good fallback list of the Go source. -/
def fatfGreyListCountries : List String := ["Bulgaria", "Burkina Faso", "Cameroon", "Croatia", "Democratic Republic of the Congo", "Haiti", "Kenya", "Mali", "Monaco", "Mozambique", "Namibia", "Nigeria", "Philippines", "Senegal", "South Africa", "South Sudan", "Syria", "Tanzania", "Venezuela", "Vietnam", "Yemen"]

/-- Shared body of the five sanction-list `Scrape` methods (EU, US OFAC, UK,
UN, FATF) whose Go bodies are identical up to name, URL and fallback list:
on fetch failure return the fallback list with `parseStatus=fallback`; on
success extract countries from the text, falling back again when nothing is
extracted.  Every path returns a result with a nil Go error. -/
def sanctionsScrape (name url : String) (fallback : List String)
    (fetch : String → Except String String) (extract : String → List String)
    (hash : String → String) (now : Nat) : Except String ScrapeResult :=
  let result := NewResult name url now
  match fetch url with
  | .error _ =>
    .ok { result with rawCountries := fallback, parseStatus := "fallback" }
  | .ok content =>
    let result := { result with contentHash := hash content }
    let countries := extract content
    if 0 < countries.length then
      .ok { result with rawCountries := countries, parseStatus := "success" }
    else
      .ok { result with rawCountries := fallback, parseStatus := "fallback" }

def euURL : String := "https://www.sanctionsmap.eu/api/v1/sanctions"

def usOFACURL : String :=
  "https://home.treasury.gov/policy-issues/financial-sanctions/sanctions-programs-and-country-information"

def ukURL : String :=
  "https://www.gov.uk/government/collections/financial-sanctions-regime-specific-consolidated-lists-and-releases"

def unURL : String := "https://www.un.org/securitycouncil/sanctions/information"

def fatfURL : String := "https://www.fatf-gafi.org/en/countries/black-and-grey-lists.html"

/-- Embedding of `EUSanctionsScraper.Scrape`. -/
def euSanctionsScrape (fetch : String → Except String String)
    (extract : String → List String) (hash : String → String) (now : Nat) :
    Except String ScrapeResult :=
  sanctionsScrape "EU Sanctions List" euURL euSanctionedCountries
    fetch extract hash now

/-- Embedding of `USOFACScraper.Scrape`. -/
def usOFACScrape (fetch : String → Except String String)
    (extract : String → List String) (hash : String → String) (now : Nat) :
    Except String ScrapeResult :=
  sanctionsScrape "US OFAC Sanctions List" usOFACURL usOFACSanctionedCountries
    fetch extract hash now

/-- Embedding of `UKSanctionsScraper.Scrape`. -/
def ukSanctionsScrape (fetch : String → Except String String)
    (extract : String → List String) (hash : String → String) (now : Nat) :
    Except String ScrapeResult :=
  sanctionsScrape "UK Sanctions List" ukURL ukSanctionedCountries
    fetch extract hash now

/-- Embedding of `UNSanctionsScraper.Scrape`. -/
def unSanctionsScrape (fetch : String → Except String String)
    (extract : String → List String) (hash : String → String) (now : Nat) :
    Except String ScrapeResult :=
  sanctionsScrape "UN Sanctions List" unURL unSanctionedCountries
    fetch extract hash now

/-- Embedding of `FATFScraper.Scrape`. -/
def fatfScrape (fetch : String → Except String String)
    (extract : String → List String) (hash : String → String) (now : Nat) :
    Except String ScrapeResult :=
  sanctionsScrape "FATF Grey List" fatfURL fatfGreyListCountries
    fetch extract hash now

/-- Try a list of URLs in order, keeping the first success or the last
failure: the candidate-URL loop of the RSF and OONI scrapers. -/
def fetchFirst (fetch : String → Except String String) :
    List String → Except String String
  | [] => .error ""
  | [u] => fetch u
  | u :: v :: us =>
    match fetch u with
    | .ok c => .ok c
    | .error _ => fetchFirst fetch (v :: us)

def fhURL : String := "https://freedomhouse.org/countries/freedom-net/scores"

def fhAPIURL : String := "https://freedomhouse.org/api/fotn-scores"

/-- Embedding of `FreedomHouseScraper.Scrape`: try the JSON API, fall back
to fetching the HTML page, and report `parseStatus=error` with empty tokens
when both fetches fail.  `tryJson` abstracts `json.Unmarshal` (`none` is a
parse error) and `parseJSONr` / `parseHTMLr` the two parsing capabilities. -/
def freedomHouseScrape {J : Type} (fetch : String → Except String String)
    (tryJson : String → Option J)
    (parseJSONr : J → ScrapeResult → ScrapeResult)
    (parseHTMLr : String → ScrapeResult → ScrapeResult)
    (hash : String → String) (now : Nat) : Except String ScrapeResult :=
  let result := NewResult "Freedom House" fhURL now
  match fetch fhAPIURL with
  | .error _ =>
    match fetch fhURL with
    | .error e =>
      .ok { result with error := "failed to fetch: " ++ e, parseStatus := "error" }
    | .ok content => .ok (parseHTMLr content result)
  | .ok content =>
    let result := { result with contentHash := hash content }
    match tryJson content with
    | none => .ok (parseHTMLr content result)
    | some data => .ok (parseJSONr data result)

def rsfURL : String := "https://rsf.org/en/index"

def rsfAPIURLs : List String :=
  ["https://rsf.org/api/v1/index",
   "https://rsf.org/sites/default/files/index_data.json"]

/-- Embedding of `RSFScraper.Scrape`. -/
def rsfScrape {J : Type} (fetch : String → Except String String)
    (tryJson : String → Option J)
    (parseJSONr : J → ScrapeResult → ScrapeResult)
    (parseHTMLr : String → ScrapeResult → ScrapeResult)
    (hash : String → String) (now : Nat) : Except String ScrapeResult :=
  let result := NewResult "Reporters Without Borders (RSF)" rsfURL now
  match fetchFirst fetch rsfAPIURLs with
  | .error _ =>
    match fetch rsfURL with
    | .error e =>
      .ok { result with error := "failed to fetch: " ++ e, parseStatus := "error" }
    | .ok content => .ok (parseHTMLr content result)
  | .ok content =>
    let result := { result with contentHash := hash content }
    match tryJson content with
    | none => .ok (parseHTMLr content result)
    | some data => .ok (parseJSONr data result)

def ooniURL : String := "https://ooni.org/countries/"

def ooniAPIURLs : List String :=
  ["https://api.ooni.io/api/v1/aggregation?probe_cc=*&since=2023-01-01",
   "https://api.ooni.io/api/v1/countries"]

/-- Embedding of `OONIScraper.Scrape`. -/
def ooniScrape {J : Type} (fetch : String → Except String String)
    (tryJson : String → Option J)
    (parseJSONr : J → ScrapeResult → ScrapeResult)
    (parseHTMLr : String → ScrapeResult → ScrapeResult)
    (hash : String → String) (now : Nat) : Except String ScrapeResult :=
  let result := NewResult "OONI (Open Observatory of Network Interference)" ooniURL now
  match fetchFirst fetch ooniAPIURLs with
  | .error _ =>
    match fetch ooniURL with
    | .error e =>
      .ok { result with error := "failed to fetch: " ++ e, parseStatus := "error" }
    | .ok content => .ok (parseHTMLr content result)
  | .ok content =>
    let result := { result with contentHash := hash content }
    match tryJson content with
    | none => .ok (parseHTMLr content result)
    | some data => .ok (parseJSONr data result)

end Blocklist

namespace Blocklist

/-- The static country catalog `countryNames` of
internal/countries/normalize.go: ISO 3166-1 alpha-2 code to the list of its
common names, the first name being the primary display name. -/
def countryNames : List (String × List String) := [
  ("AF", ["Afghanistan"]),
  ("AL", ["Albania"]),
  ("DZ", ["Algeria"]),
  ("AS", ["American Samoa"]),
  ("AD", ["Andorra"]),
  ("AO", ["Angola"]),
  ("AI", ["Anguilla"]),
  ("AQ", ["Antarctica"]),
  ("AG", ["Antigua and Barbuda", "Antigua"]),
  ("AR", ["Argentina"]),
  ("AM", ["Armenia"]),
  ("AW", ["Aruba"]),
  ("AU", ["Australia"]),
  ("AT", ["Austria"]),
  ("AZ", ["Azerbaijan"]),
  ("BS", ["Bahamas", "The Bahamas"]),
  ("BH", ["Bahrain"]),
  ("BD", ["Bangladesh"]),
  ("BB", ["Barbados"]),
  ("BY", ["Belarus"]),
  ("BE", ["Belgium"]),
  ("BZ", ["Belize"]),
  ("BJ", ["Benin"]),
  ("BM", ["Bermuda"]),
  ("BT", ["Bhutan"]),
  ("BO", ["Bolivia", "Bolivia, Plurinational State of"]),
  ("BA", ["Bosnia and Herzegovina", "Bosnia"]),
  ("BW", ["Botswana"]),
  ("BR", ["Brazil"]),
  ("BN", ["Brunei", "Brunei Darussalam"]),
  ("BG", ["Bulgaria"]),
  ("BF", ["Burkina Faso"]),
  ("BI", ["Burundi"]),
  ("CV", ["Cabo Verde", "Cape Verde"]),
  ("KH", ["Cambodia"]),
  ("CM", ["Cameroon"]),
  ("CA", ["Canada"]),
  ("KY", ["Cayman Islands"]),
  ("CF", ["Central African Republic", "CAR"]),
  ("TD", ["Chad"]),
  ("CL", ["Chile"]),
  ("CN", ["China", "People\x27s Republic of China", "PRC"]),
  ("CO", ["Colombia"]),
  ("KM", ["Comoros"]),
  ("CG", ["Congo", "Republic of the Congo", "Congo-Brazzaville"]),
  ("CD", ["Democratic Republic of the Congo", "DRC", "Congo-Kinshasa", "DR Congo"]),
  ("CR", ["Costa Rica"]),
  ("CI", ["C\u00F4te d\x27Ivoire", "Ivory Coast", "Cote d\x27Ivoire"]),
  ("HR", ["Croatia"]),
  ("CU", ["Cuba"]),
  ("CY", ["Cyprus"]),
  ("CZ", ["Czechia", "Czech Republic"]),
  ("DK", ["Denmark"]),
  ("DJ", ["Djibouti"]),
  ("DM", ["Dominica"]),
  ("DO", ["Dominican Republic"]),
  ("EC", ["Ecuador"]),
  ("EG", ["Egypt"]),
  ("SV", ["El Salvador"]),
  ("GQ", ["Equatorial Guinea"]),
  ("ER", ["Eritrea"]),
  ("EE", ["Estonia"]),
  ("SZ", ["Eswatini", "Swaziland"]),
  ("ET", ["Ethiopia"]),
  ("FJ", ["Fiji"]),
  ("FI", ["Finland"]),
  ("FR", ["France"]),
  ("GA", ["Gabon"]),
  ("GM", ["Gambia", "The Gambia"]),
  ("GE", ["Georgia"]),
  ("DE", ["Germany"]),
  ("GH", ["Ghana"]),
  ("GR", ["Greece"]),
  ("GD", ["Grenada"]),
  ("GT", ["Guatemala"]),
  ("GN", ["Guinea"]),
  ("GW", ["Guinea-Bissau"]),
  ("GY", ["Guyana"]),
  ("HT", ["Haiti"]),
  ("HN", ["Honduras"]),
  ("HK", ["Hong Kong", "Hong Kong SAR"]),
  ("HU", ["Hungary"]),
  ("IS", ["Iceland"]),
  ("IN", ["India"]),
  ("ID", ["Indonesia"]),
  ("IR", ["Iran", "Islamic Republic of Iran"]),
  ("IQ", ["Iraq"]),
  ("IE", ["Ireland"]),
  ("IL", ["Israel"]),
  ("IT", ["Italy"]),
  ("JM", ["Jamaica"]),
  ("JP", ["Japan"]),
  ("JO", ["Jordan"]),
  ("KZ", ["Kazakhstan"]),
  ("KE", ["Kenya"]),
  ("KI", ["Kiribati"]),
  ("KP", ["North Korea", "DPRK", "Democratic People\x27s Republic of Korea"]),
  ("KR", ["South Korea", "Republic of Korea", "Korea"]),
  ("KW", ["Kuwait"]),
  ("KG", ["Kyrgyzstan"]),
  ("LA", ["Laos", "Lao People\x27s Democratic Republic"]),
  ("LV", ["Latvia"]),
  ("LB", ["Lebanon"]),
  ("LS", ["Lesotho"]),
  ("LR", ["Liberia"]),
  ("LY", ["Libya"]),
  ("LI", ["Liechtenstein"]),
  ("LT", ["Lithuania"]),
  ("LU", ["Luxembourg"]),
  ("MO", ["Macao", "Macau"]),
  ("MG", ["Madagascar"]),
  ("MW", ["Malawi"]),
  ("MY", ["Malaysia"]),
  ("MV", ["Maldives"]),
  ("ML", ["Mali"]),
  ("MT", ["Malta"]),
  ("MH", ["Marshall Islands"]),
  ("MR", ["Mauritania"]),
  ("MU", ["Mauritius"]),
  ("MX", ["Mexico"]),
  ("FM", ["Micronesia", "Federated States of Micronesia"]),
  ("MD", ["Moldova", "Republic of Moldova"]),
  ("MC", ["Monaco"]),
  ("MN", ["Mongolia"]),
  ("ME", ["Montenegro"]),
  ("MA", ["Morocco"]),
  ("MZ", ["Mozambique"]),
  ("MM", ["Myanmar", "Burma"]),
  ("NA", ["Namibia"]),
  ("NR", ["Nauru"]),
  ("NP", ["Nepal"]),
  ("NL", ["Netherlands", "Holland"]),
  ("NZ", ["New Zealand"]),
  ("NI", ["Nicaragua"]),
  ("NE", ["Niger"]),
  ("NG", ["Nigeria"]),
  ("MK", ["North Macedonia", "Macedonia", "FYROM"]),
  ("NO", ["Norway"]),
  ("OM", ["Oman"]),
  ("PK", ["Pakistan"]),
  ("PW", ["Palau"]),
  ("PS", ["Palestine", "Palestinian Territories", "State of Palestine"]),
  ("PA", ["Panama"]),
  ("PG", ["Papua New Guinea"]),
  ("PY", ["Paraguay"]),
  ("PE", ["Peru"]),
  ("PH", ["Philippines"]),
  ("PL", ["Poland"]),
  ("PT", ["Portugal"]),
  ("PR", ["Puerto Rico"]),
  ("QA", ["Qatar"]),
  ("RO", ["Romania"]),
  ("RU", ["Russia", "Russian Federation"]),
  ("RW", ["Rwanda"]),
  ("KN", ["Saint Kitts and Nevis", "St. Kitts and Nevis"]),
  ("LC", ["Saint Lucia", "St. Lucia"]),
  ("VC", ["Saint Vincent and the Grenadines", "St. Vincent"]),
  ("WS", ["Samoa"]),
  ("SM", ["San Marino"]),
  ("ST", ["Sao Tome and Principe", "S\u00E3o Tom\u00E9 and Pr\u00EDncipe"]),
  ("SA", ["Saudi Arabia"]),
  ("SN", ["Senegal"]),
  ("RS", ["Serbia"]),
  ("SC", ["Seychelles"]),
  ("SL", ["Sierra Leone"]),
  ("SG", ["Singapore"]),
  ("SK", ["Slovakia"]),
  ("SI", ["Slovenia"]),
  ("SB", ["Solomon Islands"]),
  ("SO", ["Somalia"]),
  ("ZA", ["South Africa"]),
  ("SS", ["South Sudan"]),
  ("ES", ["Spain"]),
  ("LK", ["Sri Lanka"]),
  ("SD", ["Sudan"]),
  ("SR", ["Suriname"]),
  ("SE", ["Sweden"]),
  ("CH", ["Switzerland"]),
  ("SY", ["Syria", "Syrian Arab Republic"]),
  ("TW", ["Taiwan", "Republic of China", "Chinese Taipei"]),
  ("TJ", ["Tajikistan"]),
  ("TZ", ["Tanzania", "United Republic of Tanzania"]),
  ("TH", ["Thailand"]),
  ("TL", ["Timor-Leste", "East Timor"]),
  ("TG", ["Togo"]),
  ("TO", ["Tonga"]),
  ("TT", ["Trinidad and Tobago"]),
  ("TN", ["Tunisia"]),
  ("TR", ["Turkey", "T\u00FCrkiye"]),
  ("TM", ["Turkmenistan"]),
  ("TV", ["Tuvalu"]),
  ("UG", ["Uganda"]),
  ("UA", ["Ukraine"]),
  ("AE", ["United Arab Emirates", "UAE"]),
  ("GB", ["United Kingdom", "UK", "Great Britain", "Britain"]),
  ("US", ["United States", "USA", "United States of America", "America"]),
  ("UY", ["Uruguay"]),
  ("UZ", ["Uzbekistan"]),
  ("VU", ["Vanuatu"]),
  ("VA", ["Vatican City", "Holy See"]),
  ("VE", ["Venezuela", "Bolivarian Republic of Venezuela"]),
  ("VN", ["Vietnam", "Viet Nam"]),
  ("YE", ["Yemen"]),
  ("ZM", ["Zambia"]),
  ("ZW", ["Zimbabwe"])]

/-- The map writes performed by the first construction loop of
`NewNormalizer`: every known name, keyed by its normalization, mapping to
its code. -/
def namePairs : List (String × String) :=
  (countryNames.map (fun p => p.2.map (fun n => (normalizeString n, p.1)))).flatten

/-- The map writes performed by the second construction loop of
`NewNormalizer`: every code, keyed by its lowercase form, mapping to itself. -/
def codePairs : List (String × String) :=
  countryNames.map (fun p => (toLowerStr p.1, p.1))

/-- The full write sequence building `nameToCode`.  Go iterates the catalog
map in unspecified order within each loop; the alias-functionality theorem
`pairList_functional` below shows equal keys always carry equal values, so
every iteration order builds the same map and the catalog order used here is
representative. -/
def pairList : List (String × String) := namePairs ++ codePairs

/-- The `nameToCode` index built by `NewNormalizer`, as a lookup function. -/
def nameToCode : String → Option String := gwrites (fun _ => none) pairList

/-- The write sequence building `codeToName`: each code mapped to its primary
(first) name. -/
def codeNamePairs : List (String × String) :=
  countryNames.map (fun p => (p.1, p.2.headD ""))

/-- The `codeToName` index built by `NewNormalizer`, as a lookup function. -/
def codeToName : String → Option String := gwrites (fun _ => none) codeNamePairs

/-- Embedding of `Normalizer.Normalize`: returns the Go pair
`(code, found)`.  Note `len(upper) == 2` in Go counts bytes. -/
def Normalize (input : String) : String × Bool :=
  match nameToCode (normalizeString input) with
  | some code => (code, true)
  | none =>
    let upper := toUpperStr (trimSpace input)
    if utf8Len upper = 2 then
      match codeToName upper with
      | some _ => (upper, true)
      | none => ("", false)
    else ("", false)

/-- Embedding of `Normalizer.GetName`. -/
def GetName (code : String) : String :=
  (codeToName (toUpperStr code)).getD code

/-- Embedding of `Normalizer.IsValidCode`. -/
def IsValidCode (code : String) : Bool :=
  (codeToName (toUpperStr code)).isSome

/-- The list of valid catalog codes. -/
def catalogCodes : List String := countryNames.map Prod.fst

/-! Certified data-level facts about the static catalog. -/

/-- Alias functionality: every key of the `nameToCode` write sequence is
written with a single value (the spec's 4.1 edge-case policy: no alias maps
to two different codes).  As a consequence Go's unspecified map-iteration
order is immaterial. -/
theorem pairList_functional :
    ∀ q ∈ pairList, ∀ r ∈ pairList, q.1 = r.1 → q.2 = r.2 :=
  func_of_msort_chain pairList (by decide!)

/-- Key functionality of the `codeToName` write sequence. -/
theorem codeNamePairs_functional :
    ∀ q ∈ codeNamePairs, ∀ r ∈ codeNamePairs, q.1 = r.1 → q.2 = r.2 :=
  func_of_msort_chain codeNamePairs (by decide!)

/-- Catalog codes are already uppercase. -/
theorem catalog_codes_upper :
    countryNames.all (fun p => toUpperStr p.1 == p.1) = true := by decide!

/-- Every catalog entry has at least one name. -/
theorem catalog_names_nonempty :
    countryNames.all (fun p => !p.2.isEmpty) = true := by decide!

theorem toUpperStr_code {p : String × List String} (hp : p ∈ countryNames) :
    toUpperStr p.1 = p.1 :=
  beq_iff_eq.1 (List.all_eq_true.1 catalog_codes_upper p hp)

theorem mem_namePairs {p : String × List String} (hp : p ∈ countryNames)
    {n : String} (hn : n ∈ p.2) : (normalizeString n, p.1) ∈ namePairs := by
  unfold namePairs
  rw [List.mem_flatten]
  refine ⟨p.2.map (fun n => (normalizeString n, p.1)), ?_, ?_⟩
  · exact List.mem_map_of_mem _ hp
  · exact List.mem_map_of_mem _ hn

theorem mem_codePairs {p : String × List String} (hp : p ∈ countryNames) :
    (toLowerStr p.1, p.1) ∈ codePairs :=
  List.mem_map_of_mem _ hp

theorem nameToCode_eq_of_mem {k v : String} (hmem : (k, v) ∈ pairList) :
    nameToCode k = some v :=
  gwrites_of_func pairList _ k v hmem
    (fun q hq hk => pairList_functional q hq (k, v) hmem hk)

theorem nameToCode_value_mem {k v : String} (h : nameToCode k = some v) :
    v ∈ catalogCodes := by
  rcases gwrites_mem pairList _ k v h with h1 | h1
  · rcases List.mem_append.1 h1 with h2 | h2
    · unfold namePairs at h2
      rw [List.mem_flatten] at h2
      obtain ⟨l, hl, hkl⟩ := h2
      rw [List.mem_map] at hl
      obtain ⟨p, hp, rfl⟩ := hl
      rw [List.mem_map] at hkl
      obtain ⟨n, _, hn⟩ := hkl
      have : v = p.1 := by
        have := congrArg Prod.snd hn
        simpa using this.symm
      rw [this]
      exact List.mem_map_of_mem _ hp
    · unfold codePairs at h2
      rw [List.mem_map] at h2
      obtain ⟨p, hp, hpk⟩ := h2
      have : v = p.1 := by
        have := congrArg Prod.snd hpk
        simpa using this.symm
      rw [this]
      exact List.mem_map_of_mem _ hp
  · simp at h1

theorem codeToName_eq_of_mem {p : String × List String} (hp : p ∈ countryNames) :
    codeToName p.1 = some (p.2.headD "") := by
  have hmem : (p.1, p.2.headD "") ∈ codeNamePairs := by
    unfold codeNamePairs
    exact List.mem_map_of_mem _ hp
  exact gwrites_of_func codeNamePairs _ _ _ hmem
    (fun q hq hk => codeNamePairs_functional q hq _ hmem hk)

theorem codeToName_key_mem {k v : String} (h : codeToName k = some v) :
    k ∈ catalogCodes := by
  rcases gwrites_mem codeNamePairs _ k v h with h1 | h1
  · unfold codeNamePairs at h1
    rw [List.mem_map] at h1
    obtain ⟨p, hp, hpk⟩ := h1
    have : k = p.1 := by
      have := congrArg Prod.fst hpk
      simpa using this.symm
    rw [this]
    exact List.mem_map_of_mem _ hp
  · simp at h1

/-- Any successful normalization yields a catalog code. -/
theorem normalize_mem {x c : String} (h : Normalize x = (c, true)) :
    c ∈ catalogCodes := by
  unfold Normalize at h
  rcases hx : nameToCode (normalizeString x) with _ | code
  · rw [hx] at h
    simp only at h
    by_cases h2 : utf8Len (toUpperStr (trimSpace x)) = 2
    · rw [if_pos h2] at h
      rcases hy : codeToName (toUpperStr (trimSpace x)) with _ | n
      · rw [hy] at h
        simp at h
      · rw [hy] at h
        simp only [Prod.mk.injEq] at h
        rw [← h.1]
        exact codeToName_key_mem hy
    · rw [if_neg h2] at h
      simp at h
  · rw [hx] at h
    simp only [Prod.mk.injEq] at h
    rw [← h.1]
    exact nameToCode_value_mem hx

/-- The primary display name of a catalog entry normalizes back to its code. -/
theorem normalize_primary {p : String × List String} (hp : p ∈ countryNames) :
    nameToCode (normalizeString (p.2.headD "")) = some p.1 := by
  have hne : p.2 ≠ [] := by
    have := List.all_eq_true.1 catalog_names_nonempty p hp
    simpa using this
  have hmem : p.2.headD "" ∈ p.2 := by
    match p, hne with
    | (c, n :: ns), _ => exact List.mem_cons_self _ _
  exact nameToCode_eq_of_mem
    (List.mem_append.2 (Or.inl (mem_namePairs hp hmem)))

theorem string_mk_data (s : String) : String.mk s.data = s := rfl

/-- All case variants of a character list: each character independently in
its uppercase or lowercase form. -/
def caseVariants : List Char → List (List Char)
  | [] => [[]]
  | c :: cs =>
    ((caseVariants cs).map (fun v => toUpperChar c :: v)) ++
      ((caseVariants cs).map (fun v => toLowerChar c :: v))

/-- Decidable test that `as` is a case variant of `bs`. -/
def isCaseVariant : List Char → List Char → Bool
  | [], [] => true
  | a :: as, b :: bs =>
    (a == toUpperChar b || a == toLowerChar b) && isCaseVariant as bs
  | _, _ => false

theorem mem_caseVariants :
    ∀ (bs as : List Char), isCaseVariant as bs = true → as ∈ caseVariants bs := by
  intro bs
  induction bs with
  | nil =>
    intro as h
    match as with
    | [] => simp [caseVariants]
    | a :: as => simp [isCaseVariant] at h
  | cons b bs ih =>
    intro as h
    match as with
    | [] => simp [isCaseVariant] at h
    | a :: as =>
      rw [isCaseVariant, Bool.and_eq_true] at h
      have h2 := ih as h.2
      have h1 := h.1
      rw [Bool.or_eq_true] at h1
      unfold caseVariants
      rw [List.mem_append]
      rcases h1 with h1 | h1
      · left
        rw [List.mem_map]
        exact ⟨as, h2, by rw [beq_iff_eq.1 h1]⟩
      · right
        rw [List.mem_map]
        exact ⟨as, h2, by rw [beq_iff_eq.1 h1]⟩

/-- Every case variant of a catalog code normalizes to the lowercase code. -/
theorem catalog_variants_normalize :
    countryNames.all (fun p => (caseVariants p.1.data).all
      (fun w => normalizeString (String.mk w) == toLowerStr p.1)) = true := by
  decide!

/-- C5: for every code `c` of the static catalog and every case variant `v`
of `c` (uppercase, lowercase, or mixed), `Normalize v` returns `(c, true)`. -/
theorem c5_normalize_catalog_code_case_variant (c v : String)
    (hc : c ∈ catalogCodes) (hv : isCaseVariant v.data c.data = true) :
    Normalize v = (c, true) := by
  unfold catalogCodes at hc
  rw [List.mem_map] at hc
  obtain ⟨p, hp, hpc⟩ := hc
  subst hpc
  have hnorm : normalizeString v = toLowerStr p.1 := by
    have hmem := mem_caseVariants p.1.data v.data hv
    have hall := List.all_eq_true.1
      (List.all_eq_true.1 catalog_variants_normalize p hp) v.data hmem
    rw [string_mk_data] at hall
    exact beq_iff_eq.1 hall
  have hcode : nameToCode (toLowerStr p.1) = some p.1 :=
    nameToCode_eq_of_mem (List.mem_append.2 (Or.inr (mem_codePairs hp)))
  unfold Normalize
  rw [hnorm, hcode]

/-- Witness for C5 at the catalog code `CN` and the mixed-case variant
`cN`. -/
theorem c5_witness : Normalize "cN" = ("CN", true) :=
  c5_normalize_catalog_code_case_variant "CN" "cN" (by decide) (by decide)

/-- C6: canonicalization is idempotent through the display name: whenever
`Normalize x` succeeds with a code `c`, normalizing the display name returned
for `c` yields `c` again. -/
theorem c6_normalize_displayName_idempotent (x c : String)
    (h : Normalize x = (c, true)) : Normalize (GetName c) = (c, true) := by
  have hc := normalize_mem h
  unfold catalogCodes at hc
  rw [List.mem_map] at hc
  obtain ⟨p, hp, hpc⟩ := hc
  subst hpc
  have hname : GetName p.1 = p.2.headD "" := by
    unfold GetName
    rw [toUpperStr_code hp, codeToName_eq_of_mem hp]
    rfl
  rw [hname]
  unfold Normalize
  rw [normalize_primary hp]

/-- Witness for C6 at the input `USA`, which normalizes to `US`. -/
theorem c6_witness : Normalize (GetName "US") = ("US", true) :=
  c6_normalize_displayName_idempotent "USA" "US" (by decide)

/-! Reconciliation: `diffCodes` and the change decision of
`configureRegionBlocking` (command "configure"). -/

/-- Embedding of `diffCodes`.  Go materializes both inputs as map key sets,
iterates the maps collecting the one-sided keys and sorts each output;
because the iteration ranges over a duplicate-free key set and is followed
by `sort.Strings`, the observable result equals sorting the deduplicated
filtered lists, independently of Go's map iteration order. -/
def diffCodes (current desired : List String) : List String × List String :=
  ((desired.dedup.filter (fun c => !(current.contains c))).insertionSort (· ≤ ·),
   (current.dedup.filter (fun c => !(desired.contains c))).insertionSort (· ≤ ·))

/-- Embedding of the change decision computed by `configureRegionBlocking`:
`len(added) > 0 || len(removed) > 0 || currentEnabled != enable`. -/
def regionBlockingChanged (current desired : List String)
    (currentEnabled enable : Bool) : Bool :=
  decide (0 < (diffCodes current desired).1.length) ||
    decide (0 < (diffCodes current desired).2.length) ||
    (currentEnabled != enable)

theorem insertionSort_pairwise_lt (l : List String) (h : l.Nodup) :
    (l.insertionSort (· ≤ ·)).Pairwise (· < ·) := by
  have hs : (l.insertionSort (· ≤ ·)).Pairwise (· ≤ ·) :=
    List.sorted_insertionSort _ l
  have hnd : (l.insertionSort (· ≤ ·)).Nodup :=
    ((List.perm_insertionSort _ l).nodup_iff).2 h
  exact (hs.and hnd).imp (fun hab => lt_of_le_of_ne hab.1 hab.2)

theorem mem_diff_filter (xs ys : List String) (x : String) :
    x ∈ (xs.dedup.filter (fun c => !(ys.contains c))).insertionSort (· ≤ ·) ↔
      x ∈ xs ∧ x ∉ ys := by
  rw [List.mem_insertionSort, List.mem_filter, List.mem_dedup]
  constructor
  · rintro ⟨h1, h2⟩
    refine ⟨h1, fun hmem => ?_⟩
    rw [Bool.not_eq_eq_eq_not] at h2
    simp at h2
    exact h2 hmem
  · rintro ⟨h1, h2⟩
    refine ⟨h1, ?_⟩
    simp [h2]

/-- C1: the reconciliation step computes `added` as the set difference
`desired − previous` sorted strictly ascending, `removed` as
`previous − desired` sorted strictly ascending, and `changed` exactly when
`added` or `removed` is non-empty or the enabled flag transitions. -/
theorem c1_reconcile_diff (previous desired : List String)
    (previousEnabled desiredEnabled : Bool) :
    (diffCodes previous desired).1.toFinset =
        desired.toFinset \ previous.toFinset ∧
    (diffCodes previous desired).1.Pairwise (· < ·) ∧
    (diffCodes previous desired).2.toFinset =
        previous.toFinset \ desired.toFinset ∧
    (diffCodes previous desired).2.Pairwise (· < ·) ∧
    (regionBlockingChanged previous desired previousEnabled desiredEnabled = true ↔
      ((diffCodes previous desired).1 ≠ [] ∨ (diffCodes previous desired).2 ≠ [] ∨
        previousEnabled ≠ desiredEnabled)) := by
  refine ⟨?_, ?_, ?_, ?_, ?_⟩
  · ext x
    rw [List.mem_toFinset, Finset.mem_sdiff, List.mem_toFinset, List.mem_toFinset]
    exact mem_diff_filter desired previous x
  · exact insertionSort_pairwise_lt _ (List.Nodup.filter _ (List.nodup_dedup _))
  · ext x
    rw [List.mem_toFinset, Finset.mem_sdiff, List.mem_toFinset, List.mem_toFinset]
    exact mem_diff_filter previous desired x
  · exact insertionSort_pairwise_lt _ (List.Nodup.filter _ (List.nodup_dedup _))
  · unfold regionBlockingChanged
    rw [Bool.or_eq_true, Bool.or_eq_true, decide_eq_true_eq, decide_eq_true_eq,
      bne_iff_ne, List.length_pos, List.length_pos]
    tauto

/-! Input-artifact parsing: `loadCodes` (command "configure"). -/

/-- Lines of a text artifact.  `bufio.Scanner` with `ScanLines` splits at
newlines, drops a final carriage return (which `TrimSpace` removes anyway)
and yields no line for empty content, where plain splitting yields one empty
line that the blank-line filter skips; both differences are invisible to
`loadCodes`. -/
def linesOf (content : String) : List String :=
  (splitChar '\n' content.data).map (fun cs => String.mk cs)

/-- Embedding of the parsing loop of `loadCodes` (file/URL transport is out
of scope).  Note that `len(line) == 2` in Go counts UTF-8 bytes. -/
def loadCodes (content : String) : List String :=
  (linesOf content).foldl (fun codes ln =>
    let line := trimSpace ln
    if line ≠ "" ∧ startsWithHash line = false then
      if utf8Len line = 2 then codes ++ [toUpperStr line] else codes
    else codes) []

/-- The loader as the claim words it: keeps the lines that, after trimming,
are non-blank, are not comments, and are exactly two characters long. -/
def loadCodesClaim (content : String) : List String :=
  (linesOf content).filterMap (fun ln =>
    let line := trimSpace ln
    if line ≠ "" ∧ startsWithHash line = false ∧ line.data.length = 2 then
      some (toUpperStr line)
    else none)

/-- The loader as amended: exactly two UTF-8 bytes long after trimming. -/
def loadCodesAmended (content : String) : List String :=
  (linesOf content).filterMap (fun ln =>
    let line := trimSpace ln
    if line ≠ "" ∧ startsWithHash line = false ∧ utf8Len line = 2 then
      some (toUpperStr line)
    else none)

/-- C9 counterexample: the one-character line `é` occupies two bytes, so the
code keeps it (uppercased) while the claim as stated skips it. -/
theorem c9_counterexample : loadCodes "é" = ["É"] ∧ loadCodesClaim "é" = [] := by
  constructor <;> rfl

theorem loadCodes_foldl_eq : ∀ (ls : List String) (acc : List String),
    ls.foldl (fun codes ln =>
      let line := trimSpace ln
      if line ≠ "" ∧ startsWithHash line = false then
        if utf8Len line = 2 then codes ++ [toUpperStr line] else codes
      else codes) acc
    = acc ++ ls.filterMap (fun ln =>
      let line := trimSpace ln
      if line ≠ "" ∧ startsWithHash line = false ∧ utf8Len line = 2 then
        some (toUpperStr line)
      else none) := by
  intro ls
  induction ls with
  | nil => intro acc; simp
  | cons l ls ih =>
    intro acc
    rw [List.foldl_cons, List.filterMap_cons]
    by_cases h1 : trimSpace l ≠ "" ∧ startsWithHash (trimSpace l) = false
    · by_cases h2 : utf8Len (trimSpace l) = 2
      · have hcond : trimSpace l ≠ "" ∧ startsWithHash (trimSpace l) = false ∧
            utf8Len (trimSpace l) = 2 := ⟨h1.1, h1.2, h2⟩
        rw [ih, if_pos h1, if_pos h2, if_pos hcond]
        simp
      · have hcond : ¬ (trimSpace l ≠ "" ∧ startsWithHash (trimSpace l) = false ∧
            utf8Len (trimSpace l) = 2) := fun hh => h2 hh.2.2
        rw [ih, if_pos h1, if_neg h2, if_neg hcond]
    · have hcond : ¬ (trimSpace l ≠ "" ∧ startsWithHash (trimSpace l) = false ∧
          utf8Len (trimSpace l) = 2) := fun hh => h1 ⟨hh.1, hh.2.1⟩
      rw [ih, if_neg h1, if_neg hcond]

/-- C9 as amended: the loader returns exactly the trimmed lines that are
non-blank, are not comments, and are exactly two UTF-8 bytes long, each
uppercased, in file order. -/
theorem c9_loadCodes_amended (content : String) :
    loadCodes content = loadCodesAmended content := by
  unfold loadCodes loadCodesAmended
  rw [loadCodes_foldl_eq]
  simp

/-! Device-settings read: `Client.GetBlockedCountries` (internal/unifi). -/

/-- Embedding of the pure core of `GetBlockedCountries`: the two setting
fields are read through Go type assertions whose failure yields the zero
value (`false`, empty string); the transport that produced the setting map
is out of scope. -/
def getBlockedCountries (enabledField : Option Bool)
    (countriesField : Option String) : List String :=
  let enabled := enabledField.getD false
  let countriesStr := countriesField.getD ""
  if !enabled || countriesStr == "" then []
  else
    (splitChar ',' countriesStr.data).foldl (fun result cs =>
      let code := trimSpace (toUpperStr (String.mk cs))
      if code ≠ "" then result ++ [code] else result) []

theorem foldl_append_filter (f : List Char → String) :
    ∀ (l : List (List Char)) (acc : List String),
    l.foldl (fun result cs => if f cs ≠ "" then result ++ [f cs] else result) acc
      = acc ++ (l.map f).filter (fun c => c ≠ "") := by
  intro l
  induction l with
  | nil => intro acc; simp
  | cons cs l ih =>
    intro acc
    rw [List.foldl_cons, List.map_cons, List.filter_cons]
    by_cases h : f cs = ""
    · rw [if_neg (fun hh => hh h), ih]
      simp [h]
    · rw [if_pos h, ih]
      simp [h]

/-- C10: `GetBlockedCountries` returns the empty list whenever filtering is
disabled or the stored country string is empty (even if a non-empty string
is stored while disabled), and otherwise returns the comma-separated
fragments uppercased and trimmed, with empty fragments dropped. -/
theorem c10_getBlockedCountries (enabledField : Option Bool)
    (countriesField : Option String) :
    getBlockedCountries enabledField countriesField =
      if enabledField.getD false = true ∧ countriesField.getD "" ≠ "" then
        ((splitChar ',' (countriesField.getD "").data).map
          (fun cs => trimSpace (toUpperStr (String.mk cs)))).filter
            (fun c => c ≠ "")
      else [] := by
  unfold getBlockedCountries
  by_cases hE : enabledField.getD false = true
  · by_cases hS : countriesField.getD "" = ""
    · rw [if_neg (fun hh : enabledField.getD false = true ∧
          countriesField.getD "" ≠ "" => hh.2 hS)]
      have hb : (!enabledField.getD false || (countriesField.getD "" == "")) = true := by
        rw [hS]
        simp
      simp [hb]
    · have hcond := And.intro hE hS
      rw [if_pos hcond]
      have hb : (!enabledField.getD false || (countriesField.getD "" == "")) = false := by
        rw [hE]
        simp [hS]
      simp only [hb, Bool.false_eq_true, if_false]
      exact (foldl_append_filter (fun cs => trimSpace (toUpperStr (String.mk cs)))
        (splitChar ',' (countriesField.getD "").data) []).trans (List.nil_append _)
  · have hE2 : enabledField.getD false = false := by
      cases h : enabledField.getD false
      · rfl
      · exact absurd h hE
    rw [if_neg (fun hh : enabledField.getD false = true ∧
        countriesField.getD "" ≠ "" => hE hh.1)]
    have hb : (!enabledField.getD false || (countriesField.getD "" == "")) = true := by
      rw [hE2]
      simp
    simp [hb]

/-! Claim C2: adapter behaviour when fetching fails on all candidate
locations. -/

/-- C2 counterexample: with every fetch failing (a network failure, not a
code-level one), the Freedom House adapter does not return a fallback
result; it reports `parseStatus=error` with an empty token list. -/
theorem c2_counterexample :
    ¬ ∃ r : ScrapeResult,
      @freedomHouseScrape Unit (fun _ => .error "connection refused")
        (fun _ => none) (fun _ res => res) (fun _ res => res) (fun _ => "") 0 =
          .ok r ∧ r.parseStatus = "fallback" := by
  rintro ⟨r, hr, hs⟩
  have h0 : @freedomHouseScrape Unit (fun _ => .error "connection refused")
      (fun _ => none) (fun _ res => res) (fun _ res => res) (fun _ => "") 0 =
      .ok (⟨"Freedom House", fhURL, 0, "", [], "error",
        "failed to fetch: connection refused"⟩ : ScrapeResult) := rfl
  rw [h0] at hr
  injection hr with hr
  rw [← hr] at hs
  exact absurd hs (by decide)

theorem sanctionsScrape_fallback (name url : String) (fallback : List String)
    (fetch : String → Except String String) (extract : String → List String)
    (hash : String → String) (now : Nat) (e : String)
    (he : fetch url = .error e) :
    sanctionsScrape name url fallback fetch extract hash now =
      .ok { NewResult name url now with
        rawCountries := fallback, parseStatus := "fallback" } := by
  unfold sanctionsScrape
  rw [he]

theorem sanctionsScrape_isOk (name url : String) (fallback : List String)
    (fetch : String → Except String String) (extract : String → List String)
    (hash : String → String) (now : Nat) :
    ∃ r, sanctionsScrape name url fallback fetch extract hash now = .ok r := by
  unfold sanctionsScrape
  dsimp only
  rcases h : fetch url with e | content
  · exact ⟨_, rfl⟩
  · dsimp only
    by_cases hc : 0 < (extract content).length
    · rw [if_pos hc]
      exact ⟨_, rfl⟩
    · rw [if_neg hc]
      exact ⟨_, rfl⟩

theorem freedomHouseScrape_isOk {J : Type} (fetch : String → Except String String)
    (tryJson : String → Option J) (parseJSONr : J → ScrapeResult → ScrapeResult)
    (parseHTMLr : String → ScrapeResult → ScrapeResult)
    (hash : String → String) (now : Nat) :
    ∃ r, freedomHouseScrape fetch tryJson parseJSONr parseHTMLr hash now = .ok r := by
  unfold freedomHouseScrape
  dsimp only
  rcases h1 : fetch fhAPIURL with e | content
  · dsimp only
    rcases h2 : fetch fhURL with e2 | c2 <;> exact ⟨_, rfl⟩
  · dsimp only
    rcases h3 : tryJson content with _ | d <;> exact ⟨_, rfl⟩

theorem rsfScrape_isOk {J : Type} (fetch : String → Except String String)
    (tryJson : String → Option J) (parseJSONr : J → ScrapeResult → ScrapeResult)
    (parseHTMLr : String → ScrapeResult → ScrapeResult)
    (hash : String → String) (now : Nat) :
    ∃ r, rsfScrape fetch tryJson parseJSONr parseHTMLr hash now = .ok r := by
  unfold rsfScrape
  dsimp only
  rcases h1 : fetchFirst fetch rsfAPIURLs with e | content
  · dsimp only
    rcases h2 : fetch rsfURL with e2 | c2 <;> exact ⟨_, rfl⟩
  · dsimp only
    rcases h3 : tryJson content with _ | d <;> exact ⟨_, rfl⟩

theorem ooniScrape_isOk {J : Type} (fetch : String → Except String String)
    (tryJson : String → Option J) (parseJSONr : J → ScrapeResult → ScrapeResult)
    (parseHTMLr : String → ScrapeResult → ScrapeResult)
    (hash : String → String) (now : Nat) :
    ∃ r, ooniScrape fetch tryJson parseJSONr parseHTMLr hash now = .ok r := by
  unfold ooniScrape
  dsimp only
  rcases h1 : fetchFirst fetch ooniAPIURLs with e | content
  · dsimp only
    rcases h2 : fetch ooniURL with e2 | c2 <;> exact ⟨_, rfl⟩
  · dsimp only
    rcases h3 : tryJson content with _ | d <;> exact ⟨_, rfl⟩

/-- C2 as amended: when fetching fails on all candidate locations, the five
sanction-list adapters return a fallback result (their hardcoded
last-known-good list, `parseStatus=fallback`), while the Freedom House, RSF
and OONI adapters return `parseStatus=error` with an empty token list and
the fetch error recorded; in every case — failing fetches or not — no
adapter returns a hard failure (the Go error is always nil). -/
theorem c2_scrape_failure_behaviour {J : Type}
    (fetch : String → Except String String) (extract : String → List String)
    (hash : String → String) (tryJson : String → Option J)
    (parseJSONr : J → ScrapeResult → ScrapeResult)
    (parseHTMLr : String → ScrapeResult → ScrapeResult) (now : Nat) :
    ((∀ u, ∃ e, fetch u = .error e) →
      euSanctionsScrape fetch extract hash now =
        .ok { NewResult "EU Sanctions List" euURL now with
          rawCountries := euSanctionedCountries, parseStatus := "fallback" } ∧
      usOFACScrape fetch extract hash now =
        .ok { NewResult "US OFAC Sanctions List" usOFACURL now with
          rawCountries := usOFACSanctionedCountries, parseStatus := "fallback" } ∧
      ukSanctionsScrape fetch extract hash now =
        .ok { NewResult "UK Sanctions List" ukURL now with
          rawCountries := ukSanctionedCountries, parseStatus := "fallback" } ∧
      unSanctionsScrape fetch extract hash now =
        .ok { NewResult "UN Sanctions List" unURL now with
          rawCountries := unSanctionedCountries, parseStatus := "fallback" } ∧
      fatfScrape fetch extract hash now =
        .ok { NewResult "FATF Grey List" fatfURL now with
          rawCountries := fatfGreyListCountries, parseStatus := "fallback" } ∧
      (∃ e, fetch fhURL = .error e ∧
        freedomHouseScrape fetch tryJson parseJSONr parseHTMLr hash now =
          .ok { NewResult "Freedom House" fhURL now with
            error := "failed to fetch: " ++ e, parseStatus := "error" }) ∧
      (∃ e, fetch rsfURL = .error e ∧
        rsfScrape fetch tryJson parseJSONr parseHTMLr hash now =
          .ok { NewResult "Reporters Without Borders (RSF)" rsfURL now with
            error := "failed to fetch: " ++ e, parseStatus := "error" }) ∧
      (∃ e, fetch ooniURL = .error e ∧
        ooniScrape fetch tryJson parseJSONr parseHTMLr hash now =
          .ok { NewResult "OONI (Open Observatory of Network Interference)"
            ooniURL now with
            error := "failed to fetch: " ++ e, parseStatus := "error" })) ∧
    ((∃ r, euSanctionsScrape fetch extract hash now = .ok r) ∧
      (∃ r, usOFACScrape fetch extract hash now = .ok r) ∧
      (∃ r, ukSanctionsScrape fetch extract hash now = .ok r) ∧
      (∃ r, unSanctionsScrape fetch extract hash now = .ok r) ∧
      (∃ r, fatfScrape fetch extract hash now = .ok r) ∧
      (∃ r, freedomHouseScrape fetch tryJson parseJSONr parseHTMLr hash now = .ok r) ∧
      (∃ r, rsfScrape fetch tryJson parseJSONr parseHTMLr hash now = .ok r) ∧
      (∃ r, ooniScrape fetch tryJson parseJSONr parseHTMLr hash now = .ok r)) := by
  constructor
  · intro hfail
    obtain ⟨e1, he1⟩ := hfail euURL
    obtain ⟨e2, he2⟩ := hfail usOFACURL
    obtain ⟨e3, he3⟩ := hfail ukURL
    obtain ⟨e4, he4⟩ := hfail unURL
    obtain ⟨e5, he5⟩ := hfail fatfURL
    obtain ⟨ea, hea⟩ := hfail fhAPIURL
    obtain ⟨eb, heb⟩ := hfail fhURL
    obtain ⟨ec1, hec1⟩ := hfail "https://rsf.org/api/v1/index"
    obtain ⟨ec2, hec2⟩ := hfail "https://rsf.org/sites/default/files/index_data.json"
    obtain ⟨ec, hec⟩ := hfail rsfURL
    obtain ⟨ed1, hed1⟩ := hfail "https://api.ooni.io/api/v1/aggregation?probe_cc=*&since=2023-01-01"
    obtain ⟨ed2, hed2⟩ := hfail "https://api.ooni.io/api/v1/countries"
    obtain ⟨ed, hed⟩ := hfail ooniURL
    refine ⟨sanctionsScrape_fallback _ _ _ _ _ _ _ _ he1,
      sanctionsScrape_fallback _ _ _ _ _ _ _ _ he2,
      sanctionsScrape_fallback _ _ _ _ _ _ _ _ he3,
      sanctionsScrape_fallback _ _ _ _ _ _ _ _ he4,
      sanctionsScrape_fallback _ _ _ _ _ _ _ _ he5, ⟨eb, heb, ?_⟩,
      ⟨ec, hec, ?_⟩, ⟨ed, hed, ?_⟩⟩
    · simp only [freedomHouseScrape, hea, heb]
    · have hff : fetchFirst fetch rsfAPIURLs = .error ec2 := by
        simp only [rsfAPIURLs, fetchFirst, hec1, hec2]
      simp only [rsfScrape, hff, hec]
    · have hff : fetchFirst fetch ooniAPIURLs = .error ed2 := by
        simp only [ooniAPIURLs, fetchFirst, hed1, hed2]
      simp only [ooniScrape, hff, hed]
  · exact ⟨sanctionsScrape_isOk _ _ _ _ _ _ _,
      sanctionsScrape_isOk _ _ _ _ _ _ _,
      sanctionsScrape_isOk _ _ _ _ _ _ _,
      sanctionsScrape_isOk _ _ _ _ _ _ _,
      sanctionsScrape_isOk _ _ _ _ _ _ _,
      freedomHouseScrape_isOk _ _ _ _ _ _,
      rsfScrape_isOk _ _ _ _ _ _,
      ooniScrape_isOk _ _ _ _ _ _⟩

/-- Witness for C2 at a fetch that always fails with error text `down`, the
trivial extraction and hash capabilities, and instant 0. -/
theorem c2_witness :
    (euSanctionsScrape (fun _ => .error "down") (fun _ => []) (fun _ => "") 0 =
        .ok { NewResult "EU Sanctions List" euURL 0 with
          rawCountries := euSanctionedCountries, parseStatus := "fallback" } ∧
      usOFACScrape (fun _ => .error "down") (fun _ => []) (fun _ => "") 0 =
        .ok { NewResult "US OFAC Sanctions List" usOFACURL 0 with
          rawCountries := usOFACSanctionedCountries, parseStatus := "fallback" } ∧
      ukSanctionsScrape (fun _ => .error "down") (fun _ => []) (fun _ => "") 0 =
        .ok { NewResult "UK Sanctions List" ukURL 0 with
          rawCountries := ukSanctionedCountries, parseStatus := "fallback" } ∧
      unSanctionsScrape (fun _ => .error "down") (fun _ => []) (fun _ => "") 0 =
        .ok { NewResult "UN Sanctions List" unURL 0 with
          rawCountries := unSanctionedCountries, parseStatus := "fallback" } ∧
      fatfScrape (fun _ => .error "down") (fun _ => []) (fun _ => "") 0 =
        .ok { NewResult "FATF Grey List" fatfURL 0 with
          rawCountries := fatfGreyListCountries, parseStatus := "fallback" } ∧
      (∃ e, (fun _ : String => Except.error (α := String) "down") fhURL = .error e ∧
        @freedomHouseScrape Unit (fun _ => .error "down") (fun _ => none)
          (fun _ res => res) (fun _ res => res) (fun _ => "") 0 =
          .ok { NewResult "Freedom House" fhURL 0 with
            error := "failed to fetch: " ++ e, parseStatus := "error" }) ∧
      (∃ e, (fun _ : String => Except.error (α := String) "down") rsfURL = .error e ∧
        @rsfScrape Unit (fun _ => .error "down") (fun _ => none)
          (fun _ res => res) (fun _ res => res) (fun _ => "") 0 =
          .ok { NewResult "Reporters Without Borders (RSF)" rsfURL 0 with
            error := "failed to fetch: " ++ e, parseStatus := "error" }) ∧
      (∃ e, (fun _ : String => Except.error (α := String) "down") ooniURL = .error e ∧
        @ooniScrape Unit (fun _ => .error "down") (fun _ => none)
          (fun _ res => res) (fun _ res => res) (fun _ => "") 0 =
          .ok { NewResult "OONI (Open Observatory of Network Interference)"
            ooniURL 0 with
            error := "failed to fetch: " ++ e, parseStatus := "error" })) ∧
    ((∃ r, euSanctionsScrape (fun _ => .error "down") (fun _ => []) (fun _ => "") 0 = .ok r) ∧
      (∃ r, usOFACScrape (fun _ => .error "down") (fun _ => []) (fun _ => "") 0 = .ok r) ∧
      (∃ r, ukSanctionsScrape (fun _ => .error "down") (fun _ => []) (fun _ => "") 0 = .ok r) ∧
      (∃ r, unSanctionsScrape (fun _ => .error "down") (fun _ => []) (fun _ => "") 0 = .ok r) ∧
      (∃ r, fatfScrape (fun _ => .error "down") (fun _ => []) (fun _ => "") 0 = .ok r) ∧
      (∃ r, @freedomHouseScrape Unit (fun _ => .error "down") (fun _ => none)
        (fun _ res => res) (fun _ res => res) (fun _ => "") 0 = .ok r) ∧
      (∃ r, @rsfScrape Unit (fun _ => .error "down") (fun _ => none)
        (fun _ res => res) (fun _ res => res) (fun _ => "") 0 = .ok r) ∧
      (∃ r, @ooniScrape Unit (fun _ => .error "down") (fun _ => none)
        (fun _ res => res) (fun _ res => res) (fun _ => "") 0 = .ok r)) :=
  ⟨(c2_scrape_failure_behaviour (fun _ => .error "down") (fun _ => [])
      (fun _ => "") (fun _ => none) (fun _ res => res) (fun _ res => res) 0).1
    (fun _ => ⟨"down", rfl⟩),
    (c2_scrape_failure_behaviour (fun _ => .error "down") (fun _ => [])
      (fun _ => "") (fun _ => none) (fun _ res => res) (fun _ res => res) 0).2⟩

/-! The aggregator (cmd/aggregate/main.go). -/

/-- Embedding of `CountryWithProvenance`. -/
structure CountryWithProvenance where
  alpha2 : String
  name : String
  sources : List String
  rawTokens : List String
  deriving DecidableEq

/-- Embedding of `SourceStats`. -/
structure SourceStats where
  url : String
  fetchedAt : Nat
  parseStatus : String
  rawCount : Nat
  matchedCount : Nat
  error : String
  deriving DecidableEq

/-- Embedding of `AggregationResult`.  The constant metadata header fields
set in `main` (`Name`, `Version`, `Description`, `LastModified`) are
omitted; `Timestamp` is an abstract instant passed in by the caller. -/
structure AggregationResult where
  timestamp : Nat
  totalCodes : Nat
  countries : List CountryWithProvenance
  sourceStats : List (String × SourceStats)
  errors : List String
  deriving DecidableEq

/-- State threaded through `aggregate`'s main loop: the country map keyed by
code, the per-source stats map and the accumulated error lines. -/
structure AggState where
  map : List (String × CountryWithProvenance)
  stats : List (String × SourceStats)
  errors : List String

/-- Embedding of the inner token loop of `aggregate`: canonicalize, skip the
token when unmatched, otherwise count the match and fold the token into the
country map — appending the source name only when absent, and always
appending the raw token. -/
def tokenStep (src : String)
    (acc : List (String × CountryWithProvenance) × Nat) (raw : String) :
    List (String × CountryWithProvenance) × Nat :=
  match Normalize raw with
  | (code, ok) =>
    if ok then
      match alookup acc.1 code with
      | some e =>
        let sources := if src ∈ e.sources then e.sources else e.sources ++ [src]
        (aset acc.1 code
          { e with sources := sources, rawTokens := e.rawTokens ++ [raw] },
          acc.2 + 1)
      | none => (aset acc.1 code ⟨code, GetName code, [src], [raw]⟩, acc.2 + 1)
    else acc

/-- Embedding of the per-result body of `aggregate`'s main loop: fold all
raw tokens, record the per-source stats (overwriting the map entry for that
source name, as a Go map assignment does), and append one error line when
the result carries error text. -/
def resultStep (st : AggState) (r : ScrapeResult) : AggState :=
  let p := r.rawCountries.foldl (tokenStep r.source) (st.map, 0)
  { map := p.1,
    stats := aset st.stats r.source
      ⟨r.url, r.fetchedAt, r.parseStatus, r.rawCountries.length, p.2, r.error⟩,
    errors :=
      if r.error ≠ "" then st.errors ++ [r.source ++ ": " ++ r.error]
      else st.errors }

/-- Sorting relation of the final entry list (`sort.Slice` by `Alpha2`). -/
def byAlpha2 (a b : CountryWithProvenance) : Prop := a.alpha2 ≤ b.alpha2

instance : DecidableRel byAlpha2 :=
  fun a b => inferInstanceAs (Decidable (a.alpha2 ≤ b.alpha2))

instance : IsTotal CountryWithProvenance byAlpha2 :=
  ⟨fun a b => le_total a.alpha2 b.alpha2⟩

instance : IsTrans CountryWithProvenance byAlpha2 :=
  ⟨fun _ _ _ h1 h2 => le_trans h1 h2⟩

/-- Embedding of `aggregate`: fold every result through `resultStep`, then
emit the country-map values sorted ascending by code.  Go iterates the map
in unspecified order before `sort.Slice`; since the keys are unique and the
sort key is the map key, the sorted output is order-independent and any
correct sort yields it. -/
def aggregate (results : List ScrapeResult) (now : Nat) : AggregationResult :=
  let st := results.foldl resultStep ⟨[], [], []⟩
  let countries := (st.map.map Prod.snd).insertionSort byAlpha2
  ⟨now, countries.length, countries, st.stats, st.errors⟩

/-- The tokens of a result that canonicalize to the code `c`. -/
def tokensFor (r : ScrapeResult) (c : String) : List String :=
  r.rawCountries.filter (fun t => Normalize t = (c, true))

/-- The results contributing at least one token to the code `c`. -/
def contrib (l : List ScrapeResult) (c : String) : List ScrapeResult :=
  l.filter (fun r => tokensFor r c ≠ [])

/-- The source names recorded for code `c`, in result order. -/
def specSources (l : List ScrapeResult) (c : String) : List String :=
  (contrib l c).map (fun r => r.source)

/-- The raw-token provenance trail recorded for code `c`, in result order. -/
def specTokens (l : List ScrapeResult) (c : String) : List String :=
  (l.map (fun r => tokensFor r c)).flatten

/-- The entry the aggregator builds for code `c`. -/
def specEntry (l : List ScrapeResult) (c : String) : CountryWithProvenance :=
  ⟨c, GetName c, specSources l c, specTokens l c⟩

/-- Abstract effect of folding one batch of tokens on the map entry at a
fixed code. -/
def stepSpec (src c : String) (o : Option CountryWithProvenance)
    (toks : List String) : Option CountryWithProvenance :=
  match o with
  | none => if toks.isEmpty then none else some ⟨c, GetName c, [src], toks⟩
  | some e =>
    if toks.isEmpty then some e
    else some { e with
      sources := if src ∈ e.sources then e.sources else e.sources ++ [src],
      rawTokens := e.rawTokens ++ toks }

theorem stepSpec_nil (src c : String) (o : Option CountryWithProvenance) :
    stepSpec src c o [] = o := by
  cases o <;> simp [stepSpec]

/-- Folding a token list changes the map entry at code `c` exactly by
`stepSpec` applied to the tokens that canonicalize to `c`. -/
theorem lookup_tokenFold (src c : String) :
    ∀ (ts : List String) (m : List (String × CountryWithProvenance)) (n : Nat),
    alookup (ts.foldl (tokenStep src) (m, n)).1 c =
      stepSpec src c (alookup m c)
        (ts.filter (fun t => Normalize t = (c, true))) := by
  intro ts
  induction ts with
  | nil => intro m n; rw [List.foldl_nil, List.filter_nil, stepSpec_nil]
  | cons t ts ih =>
    intro m n
    rw [List.foldl_cons, List.filter_cons]
    rcases hN : Normalize t with ⟨code, ok⟩
    cases ok with
    | false =>
      have hstep : tokenStep src (m, n) t = (m, n) := by
        simp [tokenStep, hN]
      rw [hstep, ih m n, if_neg (by simp [hN])]
    | true =>
      by_cases hc : code = c
      · subst hc
        rw [if_pos (by simp [hN])]
        rcases hm : alookup m code with _ | e
        · have hstep : tokenStep src (m, n) t =
              (aset m code ⟨code, GetName code, [src], [t]⟩, n + 1) := by
            simp [tokenStep, hN, hm]
          rw [hstep, ih, alookup_aset_self]
          by_cases hts : (ts.filter (fun t => Normalize t = (code, true))).isEmpty
          · rw [List.isEmpty_iff.1 hts, stepSpec_nil]
            simp [stepSpec]
          · simp only [stepSpec, List.isEmpty_cons, Bool.false_eq_true, if_false]
            rw [if_neg (by simpa using hts)]
            simp
        · have hstep : tokenStep src (m, n) t =
              (aset m code { e with
                sources := if src ∈ e.sources then e.sources else e.sources ++ [src],
                rawTokens := e.rawTokens ++ [t] }, n + 1) := by
            simp [tokenStep, hN, hm]
          rw [hstep, ih, alookup_aset_self]
          by_cases hts : (ts.filter (fun t => Normalize t = (code, true))).isEmpty
          · rw [List.isEmpty_iff.1 hts, stepSpec_nil]
            simp [stepSpec]
          · have hsrc : src ∈
                (if src ∈ e.sources then e.sources else e.sources ++ [src]) := by
              by_cases hs : src ∈ e.sources
              · rw [if_pos hs]; exact hs
              · rw [if_neg hs]; exact List.mem_append_right _ (List.mem_singleton.2 rfl)
            simp only [stepSpec, List.isEmpty_cons, Bool.false_eq_true, if_false]
            rw [if_neg (by simpa using hts), if_pos hsrc]
            simp [List.append_assoc]
      · have hne : ¬ (decide (((code : String), true) = ((c : String), true)) = true) := by
          simp
          exact hc
        rw [if_neg hne]
        rcases hm : alookup m code with _ | e
        · have hstep : tokenStep src (m, n) t =
              (aset m code ⟨code, GetName code, [src], [t]⟩, n + 1) := by
            simp [tokenStep, hN, hm]
          rw [hstep, ih, alookup_aset_ne _ _ hc]
        · have hstep : tokenStep src (m, n) t =
              (aset m code { e with
                sources := if src ∈ e.sources then e.sources else e.sources ++ [src],
                rawTokens := e.rawTokens ++ [t] }, n + 1) := by
            simp [tokenStep, hN, hm]
          rw [hstep, ih, alookup_aset_ne _ _ hc]

/-- The per-result effect on the map entry at a fixed code. -/
theorem lookup_resultStep (st : AggState) (r : ScrapeResult) (c : String) :
    alookup (resultStep st r).map c =
      stepSpec r.source c (alookup st.map c) (tokensFor r c) := by
  unfold resultStep tokensFor
  exact lookup_tokenFold r.source c r.rawCountries st.map 0

theorem contrib_cons_pos {r : ScrapeResult} {c : String} (l : List ScrapeResult)
    (h : tokensFor r c ≠ []) : contrib (r :: l) c = r :: contrib l c := by
  unfold contrib
  rw [List.filter_cons, if_pos (by simpa using h)]

theorem contrib_cons_neg {r : ScrapeResult} {c : String} (l : List ScrapeResult)
    (h : tokensFor r c = []) : contrib (r :: l) c = contrib l c := by
  unfold contrib
  rw [List.filter_cons, if_neg (by simp [h])]

theorem specTokens_cons (r : ScrapeResult) (l : List ScrapeResult) (c : String) :
    specTokens (r :: l) c = tokensFor r c ++ specTokens l c := by
  unfold specTokens
  rw [List.map_cons, List.flatten_cons]

theorem specSources_cons_pos {r : ScrapeResult} {c : String} (l : List ScrapeResult)
    (h : tokensFor r c ≠ []) :
    specSources (r :: l) c = r.source :: specSources l c := by
  unfold specSources
  rw [contrib_cons_pos l h, List.map_cons]

theorem specSources_cons_neg {r : ScrapeResult} {c : String} (l : List ScrapeResult)
    (h : tokensFor r c = []) : specSources (r :: l) c = specSources l c := by
  unfold specSources
  rw [contrib_cons_neg l h]

/-- Folding further results onto an existing entry appends the contributing
sources and tokens, provided no later result reuses a source name already
present. -/
theorem lookup_foldResults_some :
    ∀ (l : List ScrapeResult) (st : AggState) (c : String)
    (e : CountryWithProvenance),
    (∀ r ∈ l, r.source ∉ e.sources) →
    (l.map (fun r => r.source)).Pairwise (· ≠ ·) →
    alookup st.map c = some e →
    alookup (l.foldl resultStep st).map c =
      some { e with
        sources := e.sources ++ specSources l c,
        rawTokens := e.rawTokens ++ specTokens l c } := by
  intro l
  induction l with
  | nil =>
    intro st c e _ _ hm
    simp only [List.foldl_nil, specSources, contrib, specTokens, List.filter_nil,
      List.map_nil, List.flatten_nil, List.append_nil]
    rw [hm]
  | cons r l ih =>
    intro st c e hsrc hdist hm
    rw [List.foldl_cons]
    rw [List.map_cons, List.pairwise_cons] at hdist
    have hstep := lookup_resultStep st r c
    rw [hm] at hstep
    by_cases ht : tokensFor r c = []
    · rw [ht] at hstep
      rw [stepSpec_nil] at hstep
      rw [specSources_cons_neg l ht, specTokens_cons, ht, List.nil_append]
      exact ih _ _ _ (fun r' hr' => hsrc r' (List.mem_cons_of_mem _ hr'))
        hdist.2 hstep
    · have hsrc0 : r.source ∉ e.sources := hsrc r (List.mem_cons_self _ _)
      rw [show stepSpec r.source c (some e) (tokensFor r c) =
          some { e with
            sources := e.sources ++ [r.source],
            rawTokens := e.rawTokens ++ tokensFor r c } from by
        simp only [stepSpec]
        rw [if_neg (by simpa using ht), if_neg hsrc0]] at hstep
      have ih2 := ih _ c { e with
          sources := e.sources ++ [r.source],
          rawTokens := e.rawTokens ++ tokensFor r c }
        (fun r' hr' => by
          rw [List.mem_append]
          rintro (h1 | h1)
          · exact hsrc r' (List.mem_cons_of_mem _ hr') h1
          · exact hdist.1 r'.source (List.mem_map_of_mem _ hr')
              (List.mem_singleton.1 h1).symm)
        hdist.2 hstep
      rw [ih2, specSources_cons_pos l ht, specTokens_cons]
      simp [List.append_assoc]

/-- The aggregate map entry at a code not yet present is exactly the spec
entry collected from the contributing results. -/
theorem lookup_foldResults_none :
    ∀ (l : List ScrapeResult) (st : AggState) (c : String),
    (l.map (fun r => r.source)).Pairwise (· ≠ ·) →
    alookup st.map c = none →
    alookup (l.foldl resultStep st).map c =
      if (contrib l c).isEmpty then none else some (specEntry l c) := by
  intro l
  induction l with
  | nil =>
    intro st c _ hm
    simp only [List.foldl_nil, contrib, List.filter_nil, List.isEmpty_nil, if_true]
    exact hm
  | cons r l ih =>
    intro st c hdist hm
    rw [List.foldl_cons]
    rw [List.map_cons, List.pairwise_cons] at hdist
    have hstep := lookup_resultStep st r c
    rw [hm] at hstep
    by_cases ht : tokensFor r c = []
    · rw [ht, stepSpec_nil] at hstep
      rw [ih _ _ hdist.2 hstep, contrib_cons_neg l ht]
      by_cases hce : (contrib l c).isEmpty
      · rw [if_pos hce, if_pos hce]
      · rw [if_neg hce, if_neg hce]
        unfold specEntry
        rw [specSources_cons_neg l ht, specTokens_cons, ht, List.nil_append]
    · rw [show stepSpec r.source c none (tokensFor r c) =
          some ⟨c, GetName c, [r.source], tokensFor r c⟩ from by
        simp only [stepSpec]
        rw [if_neg (by simpa using ht)]] at hstep
      have ih2 := lookup_foldResults_some l _ c
        ⟨c, GetName c, [r.source], tokensFor r c⟩
        (fun r' hr' hmem => hdist.1 r'.source (List.mem_map_of_mem _ hr')
          (List.mem_singleton.1 hmem).symm)
        hdist.2 hstep
      rw [ih2]
      have hne : ¬ (contrib (r :: l) c).isEmpty := by
        rw [contrib_cons_pos l ht]
        simp
      rw [if_neg hne]
      unfold specEntry
      rw [specSources_cons_pos l ht, specTokens_cons]
      simp

/-! Structural invariants of the aggregation map (claim C7). -/

theorem mem_aset_elim {α : Type} {m : List (String × α)} {k : String} {v : α}
    {p : String × α} (h : p ∈ aset m k v) : p = (k, v) ∨ p ∈ m := by
  induction m with
  | nil =>
    simp [aset] at h
    simp [h]
  | cons q m ih =>
    obtain ⟨qk, qv⟩ := q
    by_cases hk : qk = k
    · subst hk
      rw [show aset ((qk, qv) :: m) qk v = (qk, v) :: m from by simp [aset]] at h
      rcases List.mem_cons.1 h with h1 | h1
      · exact Or.inl h1
      · exact Or.inr (List.mem_cons_of_mem _ h1)
    · rw [show aset ((qk, qv) :: m) k v = (qk, qv) :: aset m k v from by
        simp [aset, hk]] at h
      rcases List.mem_cons.1 h with h1 | h1
      · exact Or.inr (List.mem_cons.2 (Or.inl h1))
      · rcases ih h1 with h2 | h2
        · exact Or.inl h2
        · exact Or.inr (List.mem_cons_of_mem _ h2)

theorem isValidCode_of_mem_catalog {c : String} (h : c ∈ catalogCodes) :
    IsValidCode c = true := by
  unfold catalogCodes at h
  rw [List.mem_map] at h
  obtain ⟨p, hp, rfl⟩ := h
  unfold IsValidCode
  rw [toUpperStr_code hp, codeToName_eq_of_mem hp]
  rfl

/-- Invariant maintained for every entry of the country map: the entry is
stored under its own code, the code resolves in the catalog, the source list
is non-empty and duplicate-free, and every recorded raw token canonicalizes
successfully. -/
def entryInv (k : String) (e : CountryWithProvenance) : Prop :=
  e.alpha2 = k ∧ IsValidCode k = true ∧ e.sources ≠ [] ∧ e.sources.Nodup ∧
    ∀ tok ∈ e.rawTokens, (Normalize tok).2 = true

/-- Invariant of the country map: unique keys and `entryInv` throughout. -/
def mapInv (m : List (String × CountryWithProvenance)) : Prop :=
  (keysOf m).Nodup ∧ ∀ p ∈ m, entryInv p.1 p.2

theorem tokenStep_inv (src : String)
    (acc : List (String × CountryWithProvenance) × Nat) (raw : String)
    (h : mapInv acc.1) : mapInv (tokenStep src acc raw).1 := by
  rcases hN : Normalize raw with ⟨code, ok⟩
  cases ok with
  | false =>
    have hstep : (tokenStep src acc raw).1 = acc.1 := by
      simp [tokenStep, hN]
    rw [hstep]
    exact h
  | true =>
    have hcode : IsValidCode code = true :=
      isValidCode_of_mem_catalog (normalize_mem hN)
    rcases hm : alookup acc.1 code with _ | e
    · have hstep : (tokenStep src acc raw).1 =
          aset acc.1 code ⟨code, GetName code, [src], [raw]⟩ := by
        simp [tokenStep, hN, hm]
      rw [hstep]
      refine ⟨nodup_keysOf_aset _ _ _ h.1, ?_⟩
      intro p hp
      rcases mem_aset_elim hp with h1 | h1
      · subst h1
        refine ⟨rfl, hcode, by simp, by simp, ?_⟩
        intro tok htok
        rw [List.mem_singleton] at htok
        subst htok
        rw [hN]
      · exact h.2 p h1
    · have he := h.2 (code, e) (mem_of_alookup_eq_some _ _ _ hm)
      have hstep : (tokenStep src acc raw).1 =
          aset acc.1 code { e with
            sources := if src ∈ e.sources then e.sources else e.sources ++ [src],
            rawTokens := e.rawTokens ++ [raw] } := by
        simp [tokenStep, hN, hm]
      rw [hstep]
      refine ⟨nodup_keysOf_aset _ _ _ h.1, ?_⟩
      intro p hp
      rcases mem_aset_elim hp with h1 | h1
      · subst h1
        refine ⟨he.1, hcode, ?_, ?_, ?_⟩
        · by_cases hs : src ∈ e.sources
          · rw [if_pos hs]
            exact he.2.2.1
          · rw [if_neg hs]
            simp
        · by_cases hs : src ∈ e.sources
          · rw [if_pos hs]
            exact he.2.2.2.1
          · rw [if_neg hs]
            simp [List.nodup_append, he.2.2.2.1, hs]
        · intro tok htok
          rcases List.mem_append.1 htok with h2 | h2
          · exact he.2.2.2.2 tok h2
          · rw [List.mem_singleton] at h2
            subst h2
            rw [hN]
      · exact h.2 p h1

theorem tokenFold_inv (src : String) :
    ∀ (ts : List String) (acc : List (String × CountryWithProvenance) × Nat),
    mapInv acc.1 → mapInv ((ts.foldl (tokenStep src) acc)).1 := by
  intro ts
  induction ts with
  | nil => intro acc h; exact h
  | cons t ts ih =>
    intro acc h
    rw [List.foldl_cons]
    exact ih _ (tokenStep_inv src acc t h)

theorem resultStep_inv (st : AggState) (r : ScrapeResult)
    (h : mapInv st.map) : mapInv (resultStep st r).map := by
  unfold resultStep
  exact tokenFold_inv r.source r.rawCountries (st.map, 0) h

theorem foldResults_inv :
    ∀ (l : List ScrapeResult) (st : AggState), mapInv st.map →
    mapInv (l.foldl resultStep st).map := by
  intro l
  induction l with
  | nil => intro st h; exact h
  | cons r l ih =>
    intro st h
    rw [List.foldl_cons]
    exact ih _ (resultStep_inv st r h)

theorem aggregate_mapInv (results : List ScrapeResult) :
    mapInv ((results.foldl resultStep ⟨[], [], []⟩).map) := by
  refine foldResults_inv results _ ⟨?_, ?_⟩
  · simp [keysOf]
  · intro p hp
    simp at hp

/-- The final entry list of `aggregate` is sorted strictly ascending by
code whenever the underlying map satisfies the invariant. -/
theorem countries_pairwise_lt {m : List (String × CountryWithProvenance)}
    (hinv : mapInv m) :
    ((m.map Prod.snd).insertionSort byAlpha2).Pairwise
      (fun a b => a.alpha2 < b.alpha2) := by
  have hsorted : ((m.map Prod.snd).insertionSort byAlpha2).Pairwise byAlpha2 :=
    List.sorted_insertionSort byAlpha2 (m.map Prod.snd)
  have hkeys : (m.map Prod.snd).map (fun e => e.alpha2) = keysOf m := by
    rw [List.map_map]
    exact List.map_congr_left (fun p hp => (hinv.2 p hp).1)
  have hnd0 : ((m.map Prod.snd).map (fun e => e.alpha2)).Nodup := by
    rw [hkeys]
    exact hinv.1
  have hnd : (((m.map Prod.snd).insertionSort byAlpha2).map
      (fun e => e.alpha2)).Nodup :=
    (((List.perm_insertionSort byAlpha2 (m.map Prod.snd)).map
      (fun e => e.alpha2)).nodup_iff).2 hnd0
  have hne : ((m.map Prod.snd).insertionSort byAlpha2).Pairwise
      (fun a b => a.alpha2 ≠ b.alpha2) := by
    rw [List.Nodup, List.pairwise_map] at hnd
    exact hnd
  exact (hsorted.and hne).imp (fun hab => lt_of_le_of_ne hab.1 hab.2)

/-- C7: for every input, the report's entry list is sorted strictly
ascending by code (hence codes are unique and the order deterministic),
every entry's code resolves via the canonicalizer, and every entry's
source list is non-empty with no duplicate source names. -/
theorem c7_aggregate_invariants (results : List ScrapeResult) (now : Nat) :
    (aggregate results now).countries.Pairwise
      (fun a b => a.alpha2 < b.alpha2) ∧
    ∀ e ∈ (aggregate results now).countries,
      IsValidCode e.alpha2 = true ∧ e.sources ≠ [] ∧ e.sources.Nodup := by
  have hinv := aggregate_mapInv results
  constructor
  · exact countries_pairwise_lt hinv
  · intro e he
    have he2 : e ∈ ((results.foldl resultStep ⟨[], [], []⟩).map).map Prod.snd :=
      (List.mem_insertionSort byAlpha2).1 he
    rw [List.mem_map] at he2
    obtain ⟨p, hp, rfl⟩ := he2
    have hi := hinv.2 p hp
    rw [hi.1]
    exact ⟨hi.2.1, hi.2.2.1, hi.2.2.2.1⟩

/-- Witness for C7 at a concrete single-source input. -/
theorem c7_witness :
    IsValidCode "CU" = true ∧
    (["EU Sanctions List"] : List String) ≠ [] ∧
    (["EU Sanctions List"] : List String).Nodup := by
  have h := (c7_aggregate_invariants
    [⟨"EU Sanctions List", "u", 0, "", ["Cuba"], "success", ""⟩] 0).2
    ⟨"CU", "Cuba", ["EU Sanctions List"], ["Cuba"]⟩ (by decide)
  exact h

/-! Unmatched tokens and per-source statistics (claim C8). -/

theorem filter_length_lt {α : Type} (p : α → Bool) :
    ∀ (l : List α) (t : α), t ∈ l → p t = false →
    (l.filter p).length < l.length := by
  intro l
  induction l with
  | nil =>
    intro t ht _
    simp at ht
  | cons a l ih =>
    intro t ht hp
    rw [List.filter_cons]
    rcases List.mem_cons.1 ht with h1 | h1
    · subst h1
      rw [if_neg (by simp [hp])]
      exact Nat.lt_succ_of_le (List.length_filter_le p l)
    · by_cases hpa : p a = true
      · rw [if_pos hpa]
        simp only [List.length_cons]
        exact Nat.succ_lt_succ (ih t h1 hp)
      · rw [if_neg hpa]
        exact Nat.lt_trans (ih t h1 hp) (Nat.lt_succ_self _)

/-- The matched-token counter of the inner loop counts exactly the tokens
that canonicalize successfully. -/
theorem tokenFold_count (src : String) :
    ∀ (ts : List String) (m : List (String × CountryWithProvenance)) (n : Nat),
    (ts.foldl (tokenStep src) (m, n)).2 =
      n + (ts.filter (fun x => (Normalize x).2)).length := by
  intro ts
  induction ts with
  | nil =>
    intro m n
    simp
  | cons t ts ih =>
    intro m n
    rw [List.foldl_cons, List.filter_cons]
    rcases hN : Normalize t with ⟨code, ok⟩
    cases ok with
    | false =>
      have hstep : tokenStep src (m, n) t = (m, n) := by
        simp [tokenStep, hN]
      rw [hstep, if_neg (by simp)]
      exact ih m n
    | true =>
      rw [if_pos rfl]
      rcases hm : alookup m code with _ | e
      · have hstep : tokenStep src (m, n) t =
            (aset m code ⟨code, GetName code, [src], [t]⟩, n + 1) := by
          simp [tokenStep, hN, hm]
        rw [hstep, ih]
        simp only [List.length_cons]
        omega
      · have hstep : tokenStep src (m, n) t =
            (aset m code { e with
              sources := if src ∈ e.sources then e.sources else e.sources ++ [src],
              rawTokens := e.rawTokens ++ [t] }, n + 1) := by
          simp [tokenStep, hN, hm]
        rw [hstep, ih]
        simp only [List.length_cons]
        omega

/-- The map built by the inner loop ignores unmatched tokens entirely: it
equals the map built from the matched tokens alone, for any counters. -/
theorem tokenFold_map_filter (src : String) :
    ∀ (ts : List String) (m : List (String × CountryWithProvenance)) (n n' : Nat),
    ((ts.filter (fun x => (Normalize x).2)).foldl (tokenStep src) (m, n)).1 =
      (ts.foldl (tokenStep src) (m, n')).1 := by
  intro ts
  induction ts with
  | nil =>
    intro m n n'
    simp
  | cons t ts ih =>
    intro m n n'
    rw [List.filter_cons, List.foldl_cons]
    rcases hN : Normalize t with ⟨code, ok⟩
    cases ok with
    | false =>
      have hstep : tokenStep src (m, n') t = (m, n') := by
        simp [tokenStep, hN]
      rw [hstep, if_neg (by simp)]
      exact ih m n n'
    | true =>
      rw [if_pos rfl, List.foldl_cons]
      rcases hm : alookup m code with _ | e
      · have h1 : tokenStep src (m, n) t =
            (aset m code ⟨code, GetName code, [src], [t]⟩, n + 1) := by
          simp [tokenStep, hN, hm]
        have h2 : tokenStep src (m, n') t =
            (aset m code ⟨code, GetName code, [src], [t]⟩, n' + 1) := by
          simp [tokenStep, hN, hm]
        rw [h1, h2]
        exact ih _ _ _
      · have h1 : tokenStep src (m, n) t =
            (aset m code { e with
              sources := if src ∈ e.sources then e.sources else e.sources ++ [src],
              rawTokens := e.rawTokens ++ [t] }, n + 1) := by
          simp [tokenStep, hN, hm]
        have h2 : tokenStep src (m, n') t =
            (aset m code { e with
              sources := if src ∈ e.sources then e.sources else e.sources ++ [src],
              rawTokens := e.rawTokens ++ [t] }, n' + 1) := by
          simp [tokenStep, hN, hm]
        rw [h1, h2]
        exact ih _ _ _

/-- A scrape result restricted to its canonicalizable tokens. -/
def matchedOnly (r : ScrapeResult) : ScrapeResult :=
  { r with rawCountries := r.rawCountries.filter (fun x => (Normalize x).2) }

/-- The per-source statistics record the aggregator writes for a result. -/
def mkStats (r : ScrapeResult) : SourceStats :=
  ⟨r.url, r.fetchedAt, r.parseStatus, r.rawCountries.length,
    (r.rawCountries.filter (fun x => (Normalize x).2)).length, r.error⟩

theorem resultStep_stats (st : AggState) (r : ScrapeResult) :
    (resultStep st r).stats = aset st.stats r.source (mkStats r) := by
  unfold resultStep
  dsimp only
  rw [tokenFold_count r.source r.rawCountries st.map 0, Nat.zero_add]
  rfl

theorem stats_foldResults_ne :
    ∀ (l : List ScrapeResult) (st : AggState) (s : String),
    (∀ x ∈ l, x.source ≠ s) →
    alookup (l.foldl resultStep st).stats s = alookup st.stats s := by
  intro l
  induction l with
  | nil =>
    intro st s _
    rfl
  | cons r l ih =>
    intro st s h
    rw [List.foldl_cons, ih _ s (fun x hx => h x (List.mem_cons_of_mem _ hx)),
      resultStep_stats, alookup_aset_ne _ _ (h r (List.mem_cons_self _ _))]

/-- With pairwise-distinct source names, the statistics recorded for a
contributing result are exactly `mkStats`. -/
theorem stats_foldResults :
    ∀ (l : List ScrapeResult) (st : AggState) {r : ScrapeResult}, r ∈ l →
    (l.map (fun x => x.source)).Pairwise (fun a b => a ≠ b) →
    alookup (l.foldl resultStep st).stats r.source = some (mkStats r) := by
  intro l
  induction l with
  | nil =>
    intro st r hr _
    simp at hr
  | cons x l ih =>
    intro st r hr hdist
    rw [List.map_cons, List.pairwise_cons] at hdist
    rw [List.foldl_cons]
    rcases List.mem_cons.1 hr with h1 | h1
    · subst h1
      rw [stats_foldResults_ne l _ r.source
        (fun y hy => fun hv =>
          hdist.1 y.source (List.mem_map_of_mem _ hy) hv.symm),
        resultStep_stats, alookup_aset_self]
    · exact ih _ h1 hdist.2

/-- The country map of the whole fold is unchanged when every result is
restricted to its canonicalizable tokens. -/
theorem foldResults_matched_map :
    ∀ (l : List ScrapeResult) (st st' : AggState), st.map = st'.map →
    ((l.map matchedOnly).foldl resultStep st).map =
      (l.foldl resultStep st').map := by
  intro l
  induction l with
  | nil =>
    intro st st' h
    exact h
  | cons r l ih =>
    intro st st' h
    rw [List.map_cons, List.foldl_cons, List.foldl_cons]
    apply ih
    show (resultStep st (matchedOnly r)).map = (resultStep st' r).map
    unfold resultStep matchedOnly
    dsimp only
    rw [h]
    exact tokenFold_map_filter r.source r.rawCountries st'.map 0 0

/-- C8: a raw token the canonicalizer cannot normalize is excluded from the
raw-token trail of every emitted entry; with pairwise-distinct source names
its source's statistics show a matched count strictly below the raw
count; and restricting every result to its canonicalizable tokens leaves
the emitted entry list unchanged. -/
theorem c8_unmatched_token (results : List ScrapeResult) (now : Nat)
    (r : ScrapeResult) (t : String)
    (hdist : (results.map (fun x => x.source)).Pairwise (fun a b => a ≠ b))
    (hr : r ∈ results) (hmem : t ∈ r.rawCountries)
    (ht : (Normalize t).2 = false) :
    (∀ e ∈ (aggregate results now).countries, t ∉ e.rawTokens) ∧
    (alookup (aggregate results now).sourceStats r.source = some (mkStats r) ∧
      (mkStats r).matchedCount < (mkStats r).rawCount) ∧
    (aggregate (results.map matchedOnly) now).countries =
      (aggregate results now).countries := by
  refine ⟨?_, ⟨?_, ?_⟩, ?_⟩
  · intro e he htok
    have hinv := aggregate_mapInv results
    have he2 : e ∈ ((results.foldl resultStep ⟨[], [], []⟩).map).map Prod.snd :=
      (List.mem_insertionSort byAlpha2).1 he
    rw [List.mem_map] at he2
    obtain ⟨p, hp, rfl⟩ := he2
    have hok := (hinv.2 p hp).2.2.2.2 t htok
    rw [ht] at hok
    exact Bool.false_ne_true hok
  · exact stats_foldResults results _ hr hdist
  · unfold mkStats
    exact filter_length_lt _ r.rawCountries t hmem ht
  · show ((((results.map matchedOnly).foldl resultStep
        ⟨[], [], []⟩).map).map Prod.snd).insertionSort byAlpha2 =
      (((results.foldl resultStep ⟨[], [], []⟩).map).map Prod.snd).insertionSort
        byAlpha2
    rw [foldResults_matched_map results _ _ rfl]

/-- Witness for C8: the token `Unknownland` of a concrete result is
unmatchable and is excluded from the emitted data. -/
theorem c8_witness :
    ¬ ("Unknownland" ∈ (["Cuba"] : List String)) ∧
    alookup (aggregate
        [⟨"EU Sanctions List", "u", 3, "", ["Cuba", "Unknownland"],
          "success", ""⟩] 0).sourceStats "EU Sanctions List" =
      some (mkStats ⟨"EU Sanctions List", "u", 3, "",
        ["Cuba", "Unknownland"], "success", ""⟩) ∧
    (mkStats ⟨"EU Sanctions List", "u", 3, "", ["Cuba", "Unknownland"],
      "success", ""⟩).matchedCount <
      (mkStats ⟨"EU Sanctions List", "u", 3, "", ["Cuba", "Unknownland"],
        "success", ""⟩).rawCount ∧
    (aggregate ([⟨"EU Sanctions List", "u", 3, "", ["Cuba", "Unknownland"],
        "success", ""⟩].map matchedOnly) 0).countries =
      (aggregate [⟨"EU Sanctions List", "u", 3, "", ["Cuba", "Unknownland"],
        "success", ""⟩] 0).countries := by
  have h := c8_unmatched_token
    [⟨"EU Sanctions List", "u", 3, "", ["Cuba", "Unknownland"], "success", ""⟩]
    0
    ⟨"EU Sanctions List", "u", 3, "", ["Cuba", "Unknownland"], "success", ""⟩
    "Unknownland" (by decide) (by decide) (by decide) (by decide)
  exact ⟨h.1 ⟨"CU", "Cuba", ["EU Sanctions List"], ["Cuba"]⟩ (by decide),
    h.2.1.1, h.2.1.2, h.2.2⟩

/-! The error trail of the aggregator (claim C4). -/

theorem errors_foldResults :
    ∀ (l : List ScrapeResult) (st : AggState),
    (l.foldl resultStep st).errors =
      st.errors ++ (l.filter (fun r => r.error ≠ "")).map
        (fun r => r.source ++ ": " ++ r.error) := by
  intro l
  induction l with
  | nil =>
    intro st
    simp
  | cons r l ih =>
    intro st
    rw [List.foldl_cons, ih, List.filter_cons]
    by_cases he : r.error = ""
    · rw [if_neg (by simp [he])]
      have hst : (resultStep st r).errors = st.errors := by
        unfold resultStep
        dsimp only
        rw [if_neg (by simp [he])]
      rw [hst]
    · rw [if_pos (by simp [he])]
      have hst : (resultStep st r).errors =
          st.errors ++ [r.source ++ ": " ++ r.error] := by
        unfold resultStep
        dsimp only
        rw [if_pos he]
      rw [hst, List.map_cons]
      simp [List.append_assoc]

theorem aggregate_errors (results : List ScrapeResult) (now : Nat) :
    (aggregate results now).errors =
      (results.filter (fun r => r.error ≠ "")).map
        (fun r => r.source ++ ": " ++ r.error) := by
  show (results.foldl resultStep ⟨[], [], []⟩).errors = _
  rw [errors_foldResults, List.nil_append]

theorem foldResults_map_congr :
    ∀ (l : List ScrapeResult) (st st' : AggState), st.map = st'.map →
    (l.foldl resultStep st).map = (l.foldl resultStep st').map := by
  intro l
  induction l with
  | nil =>
    intro st st' h
    exact h
  | cons r l ih =>
    intro st st' h
    rw [List.foldl_cons, List.foldl_cons]
    apply ih
    show (resultStep st r).map = (resultStep st' r).map
    unfold resultStep
    dsimp only
    rw [h]

/-- C4 counterexample: a result with non-success parse status (`fallback`)
but empty error text contributes no line to `errors`. -/
theorem c4_counterexample :
    (aggregate [⟨"EU Sanctions List", "u", 0, "", [], "fallback", ""⟩]
      0).errors = [] ∧ ("fallback" : String) ≠ "success" := by
  constructor
  · rfl
  · decide

/-- C4 as amended: `errors` holds exactly one line per result whose error
text is non-empty (in input order) — non-success statuses with empty error
text contribute nothing — and a result with no raw tokens contributes no
entries: removing it leaves the emitted entry list unchanged. -/
theorem c4_errors_amended (results : List ScrapeResult) (now : Nat) :
    (aggregate results now).errors =
      (results.filter (fun r => r.error ≠ "")).map
        (fun r => r.source ++ ": " ++ r.error) ∧
    ∀ (l₁ l₂ : List ScrapeResult) (r : ScrapeResult),
      results = l₁ ++ r :: l₂ → r.rawCountries = [] →
      (aggregate results now).countries =
        (aggregate (l₁ ++ l₂) now).countries := by
  constructor
  · exact aggregate_errors results now
  · intro l₁ l₂ r hsplit hre
    subst hsplit
    have hmap : ((l₁ ++ r :: l₂).foldl resultStep ⟨[], [], []⟩).map =
        ((l₁ ++ l₂).foldl resultStep ⟨[], [], []⟩).map := by
      rw [List.foldl_append, List.foldl_cons, List.foldl_append]
      apply foldResults_map_congr
      show (resultStep (l₁.foldl resultStep ⟨[], [], []⟩) r).map = _
      unfold resultStep
      dsimp only
      rw [hre]
      rfl
    show ((((l₁ ++ r :: l₂).foldl resultStep
        ⟨[], [], []⟩).map).map Prod.snd).insertionSort byAlpha2 =
      ((((l₁ ++ l₂).foldl resultStep
        ⟨[], [], []⟩).map).map Prod.snd).insertionSort byAlpha2
    rw [hmap]

/-- Witness for C4: an OONI-style error result yields exactly its error
line, and removing it leaves the entry list unchanged. -/
theorem c4_witness :
    (aggregate [⟨"OONI", "u", 0, "", [], "error", "failed to fetch"⟩,
      ⟨"EU Sanctions List", "u", 0, "", ["Cuba"], "success", ""⟩] 0).errors =
      ([(⟨"OONI", "u", 0, "", [], "error", "failed to fetch"⟩ : ScrapeResult),
        ⟨"EU Sanctions List", "u", 0, "", ["Cuba"], "success", ""⟩].filter
          (fun r => r.error ≠ "")).map
        (fun r => r.source ++ ": " ++ r.error) ∧
    (aggregate [⟨"OONI", "u", 0, "", [], "error", "failed to fetch"⟩,
      ⟨"EU Sanctions List", "u", 0, "", ["Cuba"], "success", ""⟩] 0).countries =
      (aggregate [⟨"EU Sanctions List", "u", 0, "", ["Cuba"], "success", ""⟩]
        0).countries := by
  have h := c4_errors_amended
    [⟨"OONI", "u", 0, "", [], "error", "failed to fetch"⟩,
      ⟨"EU Sanctions List", "u", 0, "", ["Cuba"], "success", ""⟩] 0
  exact ⟨h.1, h.2 []
    [⟨"EU Sanctions List", "u", 0, "", ["Cuba"], "success", ""⟩]
    ⟨"OONI", "u", 0, "", [], "error", "failed to fetch"⟩ rfl rfl⟩

/-! Order-independence of aggregation (claim C3). -/

theorem lookup_aggregate (results : List ScrapeResult) (c : String)
    (hdist : (results.map (fun r => r.source)).Pairwise (fun a b => a ≠ b)) :
    alookup ((results.foldl resultStep ⟨[], [], []⟩).map) c =
      if (contrib results c).isEmpty then none
      else some (specEntry results c) :=
  lookup_foldResults_none results _ c hdist rfl

/-- The relation under which two aggregation runs agree entry-wise: same
code and display name, same sources and raw-token trails up to order. -/
theorem contrib_perm {l₁ l₂ : List ScrapeResult} (h : l₁.Perm l₂)
    (c : String) : (contrib l₁ c).Perm (contrib l₂ c) := h.filter _

def entryRel (e₁ e₂ : CountryWithProvenance) : Prop :=
  e₁.alpha2 = e₂.alpha2 ∧ e₁.name = e₂.name ∧
    e₁.sources.Perm e₂.sources ∧ e₁.rawTokens.Perm e₂.rawTokens

theorem entryRel_specEntry {l₁ l₂ : List ScrapeResult} (h : l₁.Perm l₂)
    (c : String) : entryRel (specEntry l₁ c) (specEntry l₂ c) := by
  refine ⟨rfl, rfl, ?_, ?_⟩
  · show (specSources l₁ c).Perm (specSources l₂ c)
    unfold specSources contrib
    exact (h.filter _).map _
  · show (specTokens l₁ c).Perm (specTokens l₂ c)
    unfold specTokens
    exact (h.map _).flatten

/-- Two lists sorted strictly ascending by code whose members cross-match
under `entryRel` match positionally. -/
theorem forall₂_of_sorted_rel :
    ∀ (L₁ L₂ : List CountryWithProvenance),
    L₁.Pairwise (fun a b => a.alpha2 < b.alpha2) →
    L₂.Pairwise (fun a b => a.alpha2 < b.alpha2) →
    (∀ a ∈ L₁, ∃ b ∈ L₂, entryRel a b) →
    (∀ b ∈ L₂, ∃ a ∈ L₁, entryRel a b) →
    List.Forall₂ entryRel L₁ L₂ := by
  intro L₁
  induction L₁ with
  | nil =>
    intro L₂ _ _ _ h₄
    cases L₂ with
    | nil => exact List.Forall₂.nil
    | cons b L₂ =>
      obtain ⟨a, ha, _⟩ := h₄ b (List.mem_cons_self _ _)
      simp at ha
  | cons a L₁ ih =>
    intro L₂ h₁ h₂ h₃ h₄
    cases L₂ with
    | nil =>
      obtain ⟨b, hb, _⟩ := h₃ a (List.mem_cons_self _ _)
      simp at hb
    | cons b L₂ =>
      rw [List.pairwise_cons] at h₁ h₂
      have hab : entryRel a b := by
        obtain ⟨b', hb', hrel⟩ := h₃ a (List.mem_cons_self _ _)
        rcases List.mem_cons.1 hb' with rfl | hb'
        · exact hrel
        · exfalso
          obtain ⟨a', ha', hrel'⟩ := h₄ b (List.mem_cons_self _ _)
          rcases List.mem_cons.1 ha' with rfl | ha'
          · have h5 := h₂.1 b' hb'
            rw [← hrel.1] at h5
            rw [hrel'.1] at h5
            exact lt_irrefl _ h5
          · have h5 := h₁.1 a' ha'
            have h6 := h₂.1 b' hb'
            rw [hrel'.1] at h5
            rw [← hrel.1] at h6
            exact lt_irrefl _ (lt_trans h5 h6)
      refine List.Forall₂.cons hab ?_
      apply ih L₂ h₁.2 h₂.2
      · intro x hx
        obtain ⟨y, hy, hrel⟩ := h₃ x (List.mem_cons_of_mem _ hx)
        rcases List.mem_cons.1 hy with rfl | hy
        · exfalso
          have h5 := h₁.1 x hx
          rw [hrel.1, ← hab.1] at h5
          exact lt_irrefl _ h5
        · exact ⟨y, hy, hrel⟩
      · intro y hy
        obtain ⟨x, hx, hrel⟩ := h₄ y (List.mem_cons_of_mem _ hy)
        rcases List.mem_cons.1 hx with rfl | hx
        · exfalso
          have h5 := h₂.1 y hy
          rw [← hrel.1] at h5
          rw [hab.1] at h5
          exact lt_irrefl _ h5
        · exact ⟨x, hx, hrel⟩

/-- Characterization of the emitted entries: exactly the spec entries of
the codes with at least one contributing result. -/
theorem mem_aggregate_countries {results : List ScrapeResult} {now : Nat}
    (hdist : (results.map (fun r => r.source)).Pairwise (fun a b => a ≠ b))
    {e : CountryWithProvenance} :
    e ∈ (aggregate results now).countries ↔
      ∃ c, contrib results c ≠ [] ∧ e = specEntry results c := by
  constructor
  · intro he
    have he2 : e ∈ ((results.foldl resultStep ⟨[], [], []⟩).map).map Prod.snd :=
      (List.mem_insertionSort byAlpha2).1 he
    rw [List.mem_map] at he2
    obtain ⟨p, hp, rfl⟩ := he2
    have hinv := aggregate_mapInv results
    have hl : alookup ((results.foldl resultStep ⟨[], [], []⟩).map) p.1 =
        some p.2 :=
      alookup_eq_some_of_mem _ _ _ hinv.1 hp
    rw [lookup_aggregate results p.1 hdist] at hl
    by_cases hce : (contrib results p.1).isEmpty = true
    · rw [if_pos hce] at hl
      exact Option.noConfusion hl
    · rw [if_neg hce] at hl
      refine ⟨p.1, ?_, (Option.some_inj.1 hl).symm⟩
      intro hnil
      exact hce (List.isEmpty_iff.2 hnil)
  · rintro ⟨c, hc, rfl⟩
    have hl : alookup ((results.foldl resultStep ⟨[], [], []⟩).map) c =
        some (specEntry results c) := by
      rw [lookup_aggregate results c hdist,
        if_neg (fun h => hc (List.isEmpty_iff.1 h))]
    have hmem := mem_of_alookup_eq_some _ _ _ hl
    exact (List.mem_insertionSort byAlpha2).2
      (List.mem_map_of_mem Prod.snd hmem)

/-- C3 counterexample: the two fetch-arrival orders of the same two
results produce different entry lists (the per-entry `sources` and
`rawTokens` trails are insertion-ordered), with equal timestamps. -/
theorem c3_counterexample :
    ([(⟨"A", "u", 0, "", ["Russia"], "success", ""⟩ : ScrapeResult),
      ⟨"B", "u", 0, "", ["Russian Federation"], "success", ""⟩].Perm
      [⟨"B", "u", 0, "", ["Russian Federation"], "success", ""⟩,
        ⟨"A", "u", 0, "", ["Russia"], "success", ""⟩]) ∧
    (aggregate [⟨"A", "u", 0, "", ["Russia"], "success", ""⟩,
      ⟨"B", "u", 0, "", ["Russian Federation"], "success", ""⟩] 0).countries ≠
    (aggregate [⟨"B", "u", 0, "", ["Russian Federation"], "success", ""⟩,
      ⟨"A", "u", 0, "", ["Russia"], "success", ""⟩] 0).countries := by
  constructor
  · exact List.Perm.swap _ _ _
  · decide

/-- C3 as amended: aggregating a permutation of the same results (with
pairwise-distinct source names) yields the same entry list up to per-entry
reordering of the `sources` and `rawTokens` trails, the same total count,
the same per-source statistics, and the same error lines up to order. -/
theorem c3_aggregate_perm (l₁ l₂ : List ScrapeResult) (now₁ now₂ : Nat)
    (hperm : l₁.Perm l₂)
    (hdist : (l₁.map (fun r => r.source)).Pairwise (fun a b => a ≠ b)) :
    List.Forall₂ entryRel (aggregate l₁ now₁).countries
      (aggregate l₂ now₂).countries ∧
    (aggregate l₁ now₁).totalCodes = (aggregate l₂ now₂).totalCodes ∧
    (∀ s, alookup (aggregate l₁ now₁).sourceStats s =
      alookup (aggregate l₂ now₂).sourceStats s) ∧
    (aggregate l₁ now₁).errors.Perm (aggregate l₂ now₂).errors := by
  have hdist₂ : (l₂.map (fun r => r.source)).Pairwise (fun a b => a ≠ b) := by
    have h1 : (l₁.map (fun r => r.source)).Nodup := hdist
    have h2 : (l₂.map (fun r => r.source)).Nodup :=
      ((hperm.map (fun r => r.source)).nodup_iff).1 h1
    exact h2
  have hF : List.Forall₂ entryRel (aggregate l₁ now₁).countries
      (aggregate l₂ now₂).countries := by
    apply forall₂_of_sorted_rel
    · exact countries_pairwise_lt (aggregate_mapInv l₁)
    · exact countries_pairwise_lt (aggregate_mapInv l₂)
    · intro x hx
      obtain ⟨c, hc, rfl⟩ := (mem_aggregate_countries hdist).1 hx
      refine ⟨specEntry l₂ c, ?_, entryRel_specEntry hperm c⟩
      refine (mem_aggregate_countries hdist₂).2 ⟨c, ?_, rfl⟩
      intro hnil
      have h2 := contrib_perm hperm c
      rw [hnil] at h2
      exact hc h2.eq_nil
    · intro y hy
      obtain ⟨c, hc, rfl⟩ := (mem_aggregate_countries hdist₂).1 hy
      refine ⟨specEntry l₁ c, ?_, entryRel_specEntry hperm c⟩
      refine (mem_aggregate_countries hdist).2 ⟨c, ?_, rfl⟩
      intro hnil
      have h2 := contrib_perm hperm c
      rw [hnil] at h2
      exact hc h2.symm.eq_nil
  refine ⟨hF, ?_, ?_, ?_⟩
  · show (aggregate l₁ now₁).countries.length =
      (aggregate l₂ now₂).countries.length
    exact hF.length_eq
  · intro s
    by_cases hs : ∃ r ∈ l₁, r.source = s
    · obtain ⟨r, hr, rfl⟩ := hs
      rw [show alookup (aggregate l₁ now₁).sourceStats r.source =
          some (mkStats r) from stats_foldResults l₁ _ hr hdist,
        show alookup (aggregate l₂ now₂).sourceStats r.source =
          some (mkStats r) from
            stats_foldResults l₂ _ (hperm.mem_iff.1 hr) hdist₂]
    · push_neg at hs
      rw [show alookup (aggregate l₁ now₁).sourceStats s =
          alookup (⟨[], [], []⟩ : AggState).stats s from
            stats_foldResults_ne l₁ _ s hs,
        show alookup (aggregate l₂ now₂).sourceStats s =
          alookup (⟨[], [], []⟩ : AggState).stats s from
            stats_foldResults_ne l₂ _ s
              (fun x hx => hs x (hperm.mem_iff.2 hx))]
  · show ((l₁.foldl resultStep ⟨[], [], []⟩).errors).Perm
      ((l₂.foldl resultStep ⟨[], [], []⟩).errors)
    rw [errors_foldResults, errors_foldResults, List.nil_append,
      List.nil_append]
    exact (hperm.filter _).map _

/-- Witness for C3 at the two orders of a concrete two-result input. -/
theorem c3_witness :
    List.Forall₂ entryRel
      (aggregate [⟨"A", "u", 0, "", ["Russia"], "success", ""⟩,
        ⟨"B", "u", 0, "", ["Russian Federation"], "success", ""⟩] 0).countries
      (aggregate [⟨"B", "u", 0, "", ["Russian Federation"], "success", ""⟩,
        ⟨"A", "u", 0, "", ["Russia"], "success", ""⟩] 7).countries ∧
    (aggregate [⟨"A", "u", 0, "", ["Russia"], "success", ""⟩,
      ⟨"B", "u", 0, "", ["Russian Federation"], "success", ""⟩] 0).totalCodes =
      (aggregate [⟨"B", "u", 0, "", ["Russian Federation"], "success", ""⟩,
        ⟨"A", "u", 0, "", ["Russia"], "success", ""⟩] 7).totalCodes ∧
    alookup (aggregate [⟨"A", "u", 0, "", ["Russia"], "success", ""⟩,
      ⟨"B", "u", 0, "", ["Russian Federation"], "success", ""⟩]
        0).sourceStats "A" =
      alookup (aggregate
        [⟨"B", "u", 0, "", ["Russian Federation"], "success", ""⟩,
          ⟨"A", "u", 0, "", ["Russia"], "success", ""⟩] 7).sourceStats "A" ∧
    ((aggregate [⟨"A", "u", 0, "", ["Russia"], "success", ""⟩,
      ⟨"B", "u", 0, "", ["Russian Federation"], "success", ""⟩] 0).errors).Perm
      ((aggregate [⟨"B", "u", 0, "", ["Russian Federation"], "success", ""⟩,
        ⟨"A", "u", 0, "", ["Russia"], "success", ""⟩] 7).errors) := by
  have h := c3_aggregate_perm
    [⟨"A", "u", 0, "", ["Russia"], "success", ""⟩,
      ⟨"B", "u", 0, "", ["Russian Federation"], "success", ""⟩]
    [⟨"B", "u", 0, "", ["Russian Federation"], "success", ""⟩,
      ⟨"A", "u", 0, "", ["Russia"], "success", ""⟩]
    0 7 (List.Perm.swap _ _ _) (by decide)
  exact ⟨h.1, h.2.1, h.2.2.1 "A", h.2.2.2⟩

end Blocklist
